import Mathlib

/-!
Verification development for the `energomera-hass-mqtt` bridge.

This file gives a shallow embedding, in Lean 4, of the core logic of the
repository: the configuration-expression interpolator (`config.py`), the
entity namer and publisher (`iec_hass_sensor.py`, `extra_sensors.py`), the
publication tracker (class attribute `hass_config_payloads_published`), the
MQTT client last-will logic (`mqtt_client.py`) and the per-cycle
orchestrator (`hass_mqtt.py`).  Python functions become Lean functions;
exceptions become `Except`; the MQTT traffic of a cycle becomes an explicit
event trace.  All definitions are written with structural (or fuel-based)
recursion so that they evaluate inside the kernel on concrete inputs.
-/

deriving instance DecidableEq for Except

namespace Energomera

/-! ## Python-level errors

Exception classes raised by the modelled code.  `valueError`, `indexError`,
`assertionError` model the Python builtins; `meterError` models
`EnergomeraMeterError`; the two `config*` constructors model
`EnergomeraConfigError` raised by `EnergomeraConfig._energomera_re_expr_param_int`
(`"Wrong argument format ..."` and `"Non-numeric argument ..."`). -/
inductive PyErr where
  | valueError
  | meterError
  | timeoutError
  | indexError
  | assertionError
  | configWrongArgFormat (arg : List Char)
  | configNonNumericArg (content : List Char)
deriving DecidableEq

/-- True exactly for the two constructors modelling `EnergomeraConfigError`. -/
def PyErr.isConfigExprError : PyErr → Bool
  | .configWrongArgFormat _ => true
  | .configNonNumericArg _ => true
  | _ => false

/-! ## Decimal rendering of naturals

Models Python's `str`/`%d` formatting of a non-negative integer (used by
f-strings such as `f'_{idx}'` and by `strftime`).  Fuel-based so that it
reduces in the kernel; `natDigits_eq` below recovers the natural recursion. -/

def digitChar (n : Nat) : Char := Char.ofNat (48 + n)

def natDigitsF : Nat → Nat → List Char
  | 0, _ => []
  | fuel + 1, n =>
    if n < 10 then [digitChar n]
    else natDigitsF fuel (n / 10) ++ [digitChar (n % 10)]

def natDigits (n : Nat) : List Char := natDigitsF (n + 1) n

def natStr (n : Nat) : String := ⟨natDigits n⟩

/-! ## Python `int()` parsing

Models `int(s)` on an already-stripped string: an optional sign followed by
a non-empty digit string, where single underscores may separate digits. -/

def digitVal (c : Char) : Nat := c.toNat - 48

/-- ASCII decimal digit test. -/
def isDigitCh (c : Char) : Bool := 48 ≤ c.toNat && c.toNat ≤ 57

def digitsCore : Nat → List Char → Option Nat
  | acc, [] => some acc
  | acc, c :: rest =>
    if c = '_' then
      match rest with
      | [] => none
      | c2 :: rest2 =>
        if isDigitCh c2 then digitsCore (acc * 10 + digitVal c2) rest2 else none
    else if isDigitCh c then digitsCore (acc * 10 + digitVal c) rest else none

def digitsVal : List Char → Option Nat
  | [] => none
  | c :: rest => if isDigitCh c then digitsCore (digitVal c) rest else none

def pyParseInt (cs : List Char) : Option Int :=
  match cs with
  | [] => none
  | c :: rest =>
    if c = '+' then (digitsVal rest).map Int.ofNat
    else if c = '-' then (digitsVal rest).map (fun n => -(n : Int))
    else (digitsVal cs).map Int.ofNat

/-! ## Whitespace

Models the character class of Python's regex `\s` and of `str.strip()`. -/

def isWs (c : Char) : Bool :=
  c = ' ' || c = '\t' || c = '\n' || c = '\r' || c = '\x0b' || c = '\x0c'

def dropWs (cs : List Char) : List Char := cs.dropWhile isWs

def stripWs (cs : List Char) : List Char :=
  ((cs.dropWhile isWs).reverse.dropWhile isWs).reverse

/-! ## Dates

Models `datetime.date` together with the two `dateutil.relativedelta`
operations used by `config.py`: subtracting months (month arithmetic with
the day clamped to the target month's length) and subtracting days
(arithmetic on the day ordinal, here via the standard proleptic-Gregorian
civil-day conversion). -/

structure PDate where
  year : Int
  month : Nat
  day : Nat
deriving DecidableEq

def isLeapYear (y : Int) : Bool :=
  y % 4 == 0 && (y % 100 != 0 || y % 400 == 0)

def daysInMonth (y : Int) (m : Nat) : Nat :=
  if m = 2 then (if isLeapYear y then 29 else 28)
  else if m = 4 || m = 6 || m = 9 || m = 11 then 30
  else 31

/-- Subtraction of `n` months, as performed by
`date.today() - relativedelta(months=n)`: shift the month index and clamp
the day to the length of the resulting month. -/
def subMonths (d : PDate) (n : Int) : PDate :=
  let idx : Int := d.year * 12 + (d.month : Int) - 1 - n
  let y : Int := Int.fdiv idx 12
  let m : Nat := (idx - 12 * y).toNat + 1
  ⟨y, m, min d.day (daysInMonth y m)⟩

/-- Day number of a civil date (days since 1970-01-01, Hinnant's algorithm). -/
def daysFromCivil (y : Int) (m d : Nat) : Int :=
  let y' : Int := if m ≤ 2 then y - 1 else y
  let era : Int := Int.fdiv y' 400
  let yoe : Int := y' - era * 400
  let mp : Int := if 2 < m then (m : Int) - 3 else (m : Int) + 9
  let doy : Int := Int.fdiv (153 * mp + 2) 5 + (d : Int) - 1
  let doe : Int := yoe * 365 + Int.fdiv yoe 4 - Int.fdiv yoe 100 + doy
  era * 146097 + doe - 719468

/-- Civil date of a day number (inverse of `daysFromCivil`). -/
def civilFromDays (z0 : Int) : PDate :=
  let z : Int := z0 + 719468
  let era : Int := Int.fdiv z 146097
  let doe : Int := z - era * 146097
  let yoe : Int :=
    Int.fdiv (doe - Int.fdiv doe 1460 + Int.fdiv doe 36524 - Int.fdiv doe 146097) 365
  let y : Int := yoe + era * 400
  let doy : Int := doe - (365 * yoe + Int.fdiv yoe 4 - Int.fdiv yoe 100)
  let mp : Int := Int.fdiv (5 * doy + 2) 153
  let d : Int := doy - Int.fdiv (153 * mp + 2) 5 + 1
  let m : Int := if mp < 10 then mp + 3 else mp - 9
  ⟨if m ≤ 2 then y + 1 else y, m.toNat, d.toNat⟩

/-- Subtraction of `n` days, as performed by
`date.today() - relativedelta(days=n)`. -/
def subDays (d : PDate) (n : Int) : PDate :=
  civilFromDays (daysFromCivil d.year d.month d.day - n)

/-- Two-digit zero padding, as in `strftime` fields `%d`, `%m`, `%y`. -/
def pad2 (n : Nat) : List Char :=
  if n < 10 then '0' :: natDigits n else natDigits n

/-- Models `strftime('%m.%y')`. -/
def fmtMonthYear (d : PDate) : List Char :=
  pad2 d.month ++ '.' :: pad2 (Int.emod d.year 100).toNat

/-- Models `strftime('%d.%m.%y')`. -/
def fmtDayMonthYear (d : PDate) : List Char :=
  pad2 d.day ++ '.' :: pad2 d.month ++ '.' :: pad2 (Int.emod d.year 100).toNat

/-! ## The interpolation expressions (`config.py`)

`EnergomeraConfig.interpolate` applies, to every string configuration value,
`re.sub` with the pattern `(double brace)\s*KEY\s*(.*?)\s*(double brace)`
for the two keys `energomera_prev_month` and `energomera_prev_day`, month
first, and a replacement callable that parses the captured group as the
optional integer argument.  The scanner below models the matching of that
pattern: after a literal open `\x7b\x7b` it greedily skips whitespace,
matches the key literally, greedily skips whitespace, and then lazily
captures the shortest group followed by optional whitespace and the closing
braces; the dot of `(.*?)` does not match a newline. -/

/-- Matches a literal prefix, returning the remainder. -/
def dropLit : List Char → List Char → Option (List Char)
  | [], cs => some cs
  | _ :: _, [] => none
  | k :: ks, c :: cs => if c = k then dropLit ks cs else none

/-- Recognizes optional whitespace followed by the two closing braces; this
is where the lazy group of the pattern stops. -/
def wsThenClose (cs : List Char) : Option (List Char) :=
  match dropWs cs with
  | c1 :: c2 :: rest => if c1 = '\x7d' ∧ c2 = '\x7d' then some rest else none
  | _ => none

/-- Lazy capture of the pattern's group: the shortest (newline-free) prefix
whose remainder is optional whitespace followed by the closing braces.
Returns the captured group and the text after the match. -/
def captureArg : List Char → Option (List Char × List Char)
  | [] => none
  | c :: cs =>
    match wsThenClose (c :: cs) with
    | some rest => some ([], rest)
    | none =>
      if c = '\n' then none
      else (captureArg cs).map (fun p => (c :: p.1, p.2))

/-- Attempts to match the body of the pattern (everything after the opening
braces) for the given key, at the beginning of `cs`. -/
def matchKeyAt (key : List Char) (cs : List Char) : Option (List Char × List Char) :=
  match dropLit key (dropWs cs) with
  | none => none
  | some rest => captureArg (dropWs rest)

/-- Parses the captured group as the optional integer argument of an
interpolation expression; models
`EnergomeraConfig._energomera_re_expr_param_int`.  An empty group (or a
bracket pair with only whitespace inside) yields the default; a group that
does not both start with an opening and end with a closing parenthesis is a
format error; a non-integer content is a non-numeric error. -/
def exprParamInt (arg : List Char) (dflt : Int) : Except PyErr Int :=
  if arg.isEmpty then .ok dflt
  else if !(arg.getLast? = some ')' && arg.head? = some '(') then
    .error (.configWrongArgFormat arg)
  else
    let content := stripWs (arg.drop 1).dropLast
    if content.isEmpty then .ok dflt
    else
      match pyParseInt content with
      | some n => .ok n
      | none => .error (.configNonNumericArg content)

/-- Replacement callable for `energomera_prev_month`: today's date minus the
argument in months, formatted `MM.YY`. -/
def replPrevMonth (today : PDate) (arg : List Char) : Except PyErr (List Char) :=
  (exprParamInt arg 1).map (fun n => fmtMonthYear (subMonths today n))

/-- Replacement callable for `energomera_prev_day`: today's date minus the
argument in days, formatted `DD.MM.YY`. -/
def replPrevDay (today : PDate) (arg : List Char) : Except PyErr (List Char) :=
  (exprParamInt arg 1).map (fun n => fmtDayMonthYear (subDays today n))

/-- One `re.sub` pass: scan left to right; at each occurrence of the opening
braces try to match the pattern; on a match emit the replacement (errors
from the replacement callable abort the whole substitution, as a Python
exception raised from the callable does) and continue after the match; on a
failed match advance a single character, like the regex engine.  Fuel-based
(the fuel bounds the number of scanned positions) so that it reduces in the
kernel; `reSub` supplies sufficient fuel. -/
def reSubF (key : List Char) (repl : List Char → Except PyErr (List Char)) :
    Nat → List Char → Except PyErr (List Char)
  | 0, _ => .ok []
  | _, [] => .ok []
  | fuel + 1, c :: cs =>
    if c = '\x7b' && cs.head? = some '\x7b' then
      match matchKeyAt key cs.tail with
      | some (arg, rest) => do
        let r ← repl arg
        let t ← reSubF key repl fuel rest
        .ok (r ++ t)
      | none => do
        let t ← reSubF key repl fuel cs
        .ok (c :: t)
    else do
      let t ← reSubF key repl fuel cs
      .ok (c :: t)

def reSub (key : List Char) (repl : List Char → Except PyErr (List Char))
    (cs : List Char) : Except PyErr (List Char) :=
  reSubF key repl (cs.length + 1) cs

def keyPrevMonth : List Char := "energomera_prev_month".data

def keyPrevDay : List Char := "energomera_prev_day".data

/-- Interpolation of a single string configuration value: the
`energomera_prev_month` pass followed, on its output, by the
`energomera_prev_day` pass (the order used in
`EnergomeraConfig.interpolate`). -/
def interpolateValueL (today : PDate) (cs : List Char) : Except PyErr (List Char) := do
  let s1 ← reSub keyPrevMonth (replPrevMonth today) cs
  reSub keyPrevDay (replPrevDay today) s1

def interpolateValue (today : PDate) (s : String) : Except PyErr String :=
  (interpolateValueL today s.data).map (fun cs => ⟨cs⟩)

/-! ## Configuration state and `interpolate()` (`config.py`)

`EnergomeraConfig.__init__` stores the validated configuration and a deep
copy of it (`self._orig_config`); `interpolate()` walks the parameters of
the original copy and, for every string-valued field, writes the
interpolated value into the exposed configuration at the same index and
key.  A parameter is modelled as a Python dict: an association list from
key to value, where non-string values (ints, lists, `None`) are opaque to
`interpolate` and modelled by the `other` constructor. -/

inductive CfgVal where
  | str (s : String)
  | other (tag : Nat)
deriving DecidableEq

/-- Dict assignment `d[k] = v`: replace the first binding of `k`, or append
a new binding. -/
def setAssoc {β : Type} : List (String × β) → String → β → List (String × β)
  | [], k, v => [(k, v)]
  | (k', v') :: rest, k, v =>
    if k' = k then (k', v) :: rest else (k', v') :: setAssoc rest k v

/-- Dict lookup `d.get(k)`. -/
def getA {β : Type} : List (String × β) → String → Option β
  | [], _ => none
  | (k', v) :: rest, k => if k' = k then some v else getA rest k

/-- A parameter entry, as a dict. -/
abbrev PDict := List (String × CfgVal)

/-- The inner loop of `interpolate()` for one parameter: iterate over the
items of the original parameter; interpolate string values and assign them
into the exposed parameter dict. -/
def interpParamFields (today : PDate) : List (String × CfgVal) → PDict → Except PyErr PDict
  | [], cfg => .ok cfg
  | (k, v) :: items, cfg =>
    match v with
    | .str s => do
      let s' ← interpolateValue today s
      interpParamFields today items (setAssoc cfg k (.str s'))
    | .other _ => interpParamFields today items cfg

/-- The outer loop of `interpolate()`: pair the original parameters with the
exposed ones index-wise.  The original and exposed lists always have the
same length for states produced by the constructor (the exposed list is a
deep copy of the original); an original parameter with no exposed
counterpart would fault with `IndexError` on the first write. -/
def goParams (today : PDate) : List PDict → List PDict → Except PyErr (List PDict)
  | [], cfgs => .ok cfgs
  | _ :: _, [] => .error .indexError
  | o :: os, c :: cs => do
    let c' ← interpParamFields today o c
    let cs' ← goParams today os cs
    .ok (c' :: cs')

/-- Configuration state: the exposed `parameters` and the original copy. -/
structure ConfigState where
  params : List PDict
  origParams : List PDict
deriving DecidableEq

/-- Models `EnergomeraConfig.__init__`: the original copy starts out equal
to the exposed configuration (`deepcopy`). -/
def mkConfigState (ps : List PDict) : ConfigState := ⟨ps, ps⟩

/-- Models `EnergomeraConfig.interpolate()` on a given day. -/
def interpolateConfig (today : PDate) (st : ConfigState) : Except PyErr ConfigState :=
  (goParams today st.origParams st.params).map (fun ps => ⟨ps, st.origParams⟩)

/-- Repeated calls to `interpolate()` on the same day. -/
def repeatInterp (today : PDate) : Nat → ConfigState → Except PyErr ConfigState
  | 0, st => .ok st
  | n + 1, st => do
    let st' ← interpolateConfig today st
    repeatInterp today n st'

/-! ## The MQTT client last-will state (`mqtt_client.py`)

`MqttClient` keeps a flag `_will_set` (true when a will was passed to the
constructor or `will_set` already ran) and delegates to the underlying paho
client, whose stored last will we model directly.  In dry-run mode every
method returns before touching any state. -/

structure MqttClientState where
  dryRun : Bool
  willIsSet : Bool
  storedWill : Option (String × String)
deriving DecidableEq

/-- Models `MqttClient.__init__`: `_will_set` is true iff a `will` keyword
argument was given (in which case the underlying client holds it). -/
def mkMqttClient (will : Option (String × String)) (dryRun : Bool) : MqttClientState :=
  ⟨dryRun, will.isSome, will⟩

/-- Models `MqttClient.will_set`: skip in dry-run mode, skip if a last will
has already been set, otherwise store the will and raise the flag.  Also
returns the calls made to the underlying client's `will_set` (at most
one). -/
def mqttWillSet (st : MqttClientState) (topic payload : String) :
    MqttClientState × List (String × String) :=
  if st.dryRun then (st, [])
  else if st.willIsSet then (st, [])
  else ({ st with willIsSet := true, storedWill := some (topic, payload) },
        [(topic, payload)])

/-- Models `MqttClient.will_clear`: skip in dry-run mode, otherwise clear
the underlying will and lower the flag. -/
def mqttWillClear (st : MqttClientState) : MqttClientState :=
  if st.dryRun then st
  else { st with willIsSet := false, storedWill := none }

/-! ## Sensors (`iec_hass_sensor.py`, `extra_sensors.py`)

An `IecToHassSensor` turns one configuration parameter plus the meter
reading for it into HomeAssistant MQTT discovery (config) and state
payloads.  `IecToHassBinarySensor` overrides the topic category, the config
payload and the state payload.  The MQTT traffic of a run is modelled as an
explicit event trace. -/

/-- The `name` field of a parameter: a single label or a list of labels. -/
inductive PName where
  | s (v : String)
  | l (vs : List String)
deriving DecidableEq

/-- One entry of the `parameters` configuration section
(`ConfigParameterSchema`). -/
structure IecParam where
  address : String
  name : PName
  device_class : Option String
  state_class : Option String
  unit : Option String
  additional_data : Option String
  entity_name : Option String
  response_idx : Option Int
deriving DecidableEq

/-- A value carried by a (possibly pseudo) meter entry: meter readings are
strings, pseudo binary sensors carry booleans. -/
inductive PyVal where
  | str (s : String)
  | bool (b : Bool)
deriving DecidableEq

/-- MQTT traffic and log lines produced while processing sensors. -/
inductive MqttEvent where
  | willSet (topic payload : String)
  | connect
  | publish (topic payload : String) (retain : Bool)
  | logEntityError (address : String) (idx : Nat)
  | logIndexError (address : String)
deriving DecidableEq

/-- Python list indexing `xs[i]` with negative indices counting from the
end; `none` models `IndexError`. -/
def pyListIndex {α : Type} (xs : List α) (i : Int) : Option α :=
  let j : Int := if i < 0 then (xs.length : Int) + i else i
  if 0 ≤ j ∧ j < (xs.length : Int) then xs.get? j.toNat else none

/-- Models `IecToHassSensor.iec_try_value_by_index`: if `response_idx` is
configured, narrow the reading to the single selected entry, or — when the
index is out of range (`IndexError`) — log an error and narrow it to the
empty list.  The boolean reports whether the error was logged. -/
def iecTryValueByIndex {α : Type} (ridx : Option Int) (xs : List α) : List α × Bool :=
  match ridx with
  | none => (xs, false)
  | some i =>
    match pyListIndex xs i with
    | some v => ([v], false)
    | none => ([], true)

/-- Models `'/'.join(parts)`. -/
def joinSlash : List String → String
  | [] => ""
  | [x] => x
  | x :: y :: rest => x ++ "/" ++ joinSlash (y :: rest)

/-- Base of the MQTT topics of one sensor: the discovery prefix (omitted
when empty, which is falsy), the topic category (`sensor` or
`binary_sensor`), the device id and the unique id, joined by slashes. -/
def topicBase (discPfx category deviceId uniqueId : String) : String :=
  if discPfx ≠ "" then joinSlash [discPfx, category, deviceId, uniqueId]
  else joinSlash [category, deviceId, uniqueId]

/-- The HASS properties generated for one entity. -/
structure HassProps where
  deviceId : String
  uniqueId : String
  itemName : String
  configTopic : String
  stateTopic : String
deriving DecidableEq

/-- Models `IecToHassSensor.hass_gen_hass_sensor_props`, as a function of
the meter identity, the parameter, the length of the (narrowed) reading and
the entity's position in it.  A list `name` is first sampled at position 0
(an empty list faults with `IndexError`, caught by the per-entity handler
in `process`); with a multi-entry reading the unique id gets the positional
suffix and the display name is selected positionally (list names falling
back to `address idx`) or suffixed (scalar names). -/
def hassGenSensorProps (category model serialNumber discPfx : String)
    (p : IecParam) (iecLen : Nat) (idx : Nat) : Except PyErr HassProps := do
  let deviceId := model ++ "_" ++ serialNumber
  let uid0 := deviceId ++ "_" ++ (p.entity_name.getD p.address)
  let name0 ←
    match p.name with
    | .l ns =>
      match ns.head? with
      | some n => Except.ok n
      | none => Except.error PyErr.indexError
    | .s n => Except.ok n
  let uid := if 1 < iecLen then uid0 ++ "_" ++ natStr idx else uid0
  let nm :=
    if 1 < iecLen then
      match p.name with
      | .l ns => (ns.get? idx).getD (p.address ++ " " ++ natStr idx)
      | .s _ => name0 ++ " " ++ natStr idx
    else name0
  let base := topicBase discPfx category deviceId uid
  .ok ⟨deviceId, uid, nm, base ++ "/config", base ++ "/state"⟩

/-! ### JSON payloads

`json.dumps` of the payload dicts, with the default separators; the keys
appear in insertion order.  The strings that reach the payloads contain no
quotes or backslashes, so no escaping is modelled. -/

def jstr (s : String) : String := "\"" ++ s ++ "\""

def jopt : Option String → String
  | some s => jstr s
  | none => "null"

def joinComma : List String → String
  | [] => ""
  | [x] => x
  | x :: y :: rest => x ++ ", " ++ joinComma (y :: rest)

def jfields (fields : List (String × String)) : String :=
  "\x7b" ++ joinComma (fields.map (fun p => jstr p.1 ++ ": " ++ p.2)) ++ "\x7d"

/-- The nested `device` object of a discovery payload. -/
def deviceJson (serialNumber deviceId model swVersion : String) : String :=
  jfields [("name", jstr serialNumber), ("ids", jstr deviceId),
           ("model", jstr model), ("sw_version", jstr swVersion)]

/-- Models `IecToHassSensor.hass_config_payload` (plain sensor): fields in
insertion order with `None`-valued fields dropped. -/
def sensorConfigJson (model swVersion serialNumber : String) (p : IecParam)
    (pr : HassProps) : String :=
  jfields
    ([("name", jstr pr.itemName),
      ("device", deviceJson serialNumber pr.deviceId model swVersion)]
     ++ (match p.device_class with
         | some v => [("device_class", jstr v)]
         | none => [])
     ++ [("unique_id", jstr pr.uniqueId), ("object_id", jstr pr.uniqueId)]
     ++ (match p.unit with
         | some v => [("unit_of_measurement", jstr v)]
         | none => [])
     ++ (match p.state_class with
         | some v => [("state_class", jstr v)]
         | none => [])
     ++ [("state_topic", jstr pr.stateTopic),
         ("value_template", jstr "\x7b\x7b value_json.value \x7d\x7d")])

/-- Models `IecToHassBinarySensor.hass_config_payload`: fixed fields, no
`None` filtering. -/
def binarySensorConfigJson (model swVersion serialNumber : String) (p : IecParam)
    (pr : HassProps) : String :=
  jfields
    [("name", jstr pr.itemName),
     ("device", deviceJson serialNumber pr.deviceId model swVersion),
     ("device_class", jopt p.device_class),
     ("unique_id", jstr pr.uniqueId), ("object_id", jstr pr.uniqueId),
     ("state_topic", jstr pr.stateTopic),
     ("value_template", jstr "\x7b\x7b value_json.value \x7d\x7d")]

/-- ASCII lowering, models `str.lower()` on the values that occur here. -/
def lowerAscii (s : String) : String :=
  ⟨s.data.map (fun c =>
    if 'A' ≤ c ∧ c ≤ 'Z' then Char.ofNat (c.toNat + 32) else c)⟩

/-- Normalization of a binary sensor value
(`IecToHassBinarySensor.hass_state_payload`): booleans pass through,
strings compare case-insensitively against `"true"`. -/
def binaryStateOfVal : PyVal → Bool
  | .bool b => b
  | .str s => lowerAscii s == "true"

/-- Models `json.dumps(dict(value=...))`. -/
def statePayloadJson (v : String) : String :=
  "\x7b\"value\": " ++ jstr v ++ "\x7d"

/-- The state payload of one sensor: binary sensors map their value to the
`ON`/`OFF` enumeration, plain sensors pass the string through (a boolean in
a plain sensor would serialize as a JSON boolean; unreachable here). -/
def hassStateJson (binary : Bool) (v : PyVal) : String :=
  if binary then statePayloadJson (if binaryStateOfVal v then "ON" else "OFF")
  else
    match v with
    | .str s => statePayloadJson s
    | .bool b => "\x7b\"value\": " ++ (if b then "true" else "false") ++ "\x7d"

/-! ### The publication tracker and the per-entity publisher -/

/-- The process-wide publication tracker
(`IecToHassSensor.hass_config_payloads_published`): unique id to hash of
the JSON config payload last sent. -/
abbrev Tracker := List (String × Nat)

/-- Stand-in for Python's `hash()` on strings: a fixed deterministic hash.
None of the results below rely on any property of this function beyond it
being a function. -/
def pyHash (s : String) : Nat :=
  s.data.foldl (fun h c => (h * 31 + c.toNat) % 2305843009213693951) 7

/-- Models the config-payload block of `IecToHassSensor.process` (the part
guarded by `if config_payload_sent_hash != hash(json_config_payload)`):
publish the retained discovery payload exactly when the stored hash for the
unique id is absent or differs, and record the hash right after.  Returns
the publish events (at most one) and the updated tracker. -/
def hassConfigPublishStep (tracker : Tracker) (uid payloadJson configTopic : String) :
    List MqttEvent × Tracker :=
  if getA tracker uid ≠ some (pyHash payloadJson) then
    ([.publish configTopic payloadJson true],
     setAssoc tracker uid (pyHash payloadJson))
  else ([], tracker)

/-- The mutable bus-side state threaded through sensor processing: the MQTT
client (for the last will) and the publication tracker. -/
structure BusState where
  mqtt : MqttClientState
  tracker : Tracker
deriving DecidableEq

/-- Static context of one sensor: which subclass (binary or plain) and the
discovery prefix plus meter identity. -/
structure SensorCtx where
  binary : Bool
  discPfx : String
  model : String
  swVersion : String
  serialNumber : String
deriving DecidableEq

def SensorCtx.category (ctx : SensorCtx) : String :=
  if ctx.binary then "binary_sensor" else "sensor"

def SensorCtx.configJson (ctx : SensorCtx) (p : IecParam) (pr : HassProps) : String :=
  if ctx.binary then binarySensorConfigJson ctx.model ctx.swVersion ctx.serialNumber p pr
  else sensorConfigJson ctx.model ctx.swVersion ctx.serialNumber p pr

/-- The body of the per-entity loop of `IecToHassSensor.process`: generate
the properties; register the last will when the sensor declares one; unless
`setupOnly`, publish the discovery payload through the tracker and then the
(non-retained) state payload.  Errors (only property generation can fault)
are reported to the caller, which logs and continues. -/
def processEntity (ctx : SensorCtx) (p : IecParam) (lastWill : Option PyVal)
    (setupOnly : Bool) (iecLen idx : Nat) (v : PyVal) (st : BusState) :
    Except PyErr (List MqttEvent × BusState) := do
  let pr ← hassGenSensorProps ctx.category ctx.model ctx.serialNumber ctx.discPfx p iecLen idx
  let (st1, evW) : BusState × List MqttEvent :=
    match lastWill with
    | some lw =>
      let (m, calls) := mqttWillSet st.mqtt pr.stateTopic (hassStateJson ctx.binary lw)
      ({ st with mqtt := m }, calls.map (fun c => MqttEvent.willSet c.1 c.2))
    | none => (st, [])
  if setupOnly then .ok (evW, st1)
  else
    let cfg := ctx.configJson p pr
    let (evC, tr) := hassConfigPublishStep st1.tracker pr.uniqueId cfg pr.configTopic
    .ok (evW ++ evC ++ [.publish pr.stateTopic (hassStateJson ctx.binary v) false],
         { st1 with tracker := tr })

/-- The per-entity loop of `process`, with its `try`/`except`: a faulting
entity contributes a log line carrying the parameter address and the entity
index, and processing continues with the next entity.  Returns one event
block per entity. -/
def processEntities (ctx : SensorCtx) (p : IecParam) (lastWill : Option PyVal)
    (setupOnly : Bool) (iecLen : Nat) : Nat → List PyVal → BusState →
    List (List MqttEvent) × BusState
  | _, [], st => ([], st)
  | idx, v :: vs, st =>
    match processEntity ctx p lastWill setupOnly iecLen idx v st with
    | .ok (evs, st') =>
      let (bs, st'') := processEntities ctx p lastWill setupOnly iecLen (idx + 1) vs st'
      (evs :: bs, st'')
    | .error _ =>
      let (bs, st'') := processEntities ctx p lastWill setupOnly iecLen (idx + 1) vs st
      ([.logEntityError p.address idx] :: bs, st'')

/-- Models `IecToHassSensor.process`: narrow the reading by `response_idx`
(logging on an out-of-range index), then run the per-entity loop.  Total:
per-entity failures are caught inside. -/
def iecToHassProcess (ctx : SensorCtx) (p : IecParam) (iecItem : List PyVal)
    (lastWill : Option PyVal) (setupOnly : Bool) (st : BusState) :
    List MqttEvent × BusState :=
  let (vals, logged) := iecTryValueByIndex p.response_idx iecItem
  let ev0 := if logged then [MqttEvent.logIndexError p.address] else []
  let (blocks, st') := processEntities ctx p lastWill setupOnly vals.length 0 vals st
  (ev0 ++ blocks.flatten, st')

/-! ## The cycle orchestrator (`hass_mqtt.py`)

`EnergomeraHassMqtt.iec_read_admin` runs one meter cycle: connect and
authenticate against the meter, parse the identification response, register
the last will of the online pseudo-sensor, connect the MQTT client, process
each configured parameter, close the meter session, and publish the online
status.  The meter side is abstracted as a script: whether the
connect/authentication phase succeeds, the `HELLO` response, the per-index
parameter readings (`none` modelling a read timeout) and whether the final
`send_break` succeeds.  The `time()`-based cycle-duration pseudo-sensor is
not modelled: its `PseudoSensor` class is not part of the sources here and
its wall-clock value is outside a shallow embedding. -/

/-- Models `str.split(',')`. -/
def splitCommaAux : List Char → List Char → List String
  | acc, [] => [⟨acc.reverse⟩]
  | acc, c :: cs =>
    if c = ',' then ⟨acc.reverse⟩ :: splitCommaAux [] cs
    else splitCommaAux (c :: acc) cs

def splitComma (s : String) : List String := splitCommaAux [] s.data

/-- Models `EnergomeraHassMqtt.set_meter_ids`.  The first component is the
outcome: a response with other than one entry raises `ValueError`; a single
entry whose value does not split into exactly five comma-separated fields
raises `ValueError` from the unpacking; empty model, software version or
serial number fields raise `EnergomeraMeterError`.  The second component is
the meter identity actually assigned to the instance attributes: the
five-field unpacking assigns them even when the subsequent emptiness check
then raises. -/
def setMeterIds (hello : List String) :
    Except PyErr (String × String × String) × Option (String × String × String) :=
  match hello with
  | [v] =>
    match splitComma v with
    | [_, m, sw, sn, _] =>
      if m ≠ "" ∧ sw ≠ "" ∧ sn ≠ "" then (.ok (m, sw, sn), some (m, sw, sn))
      else (.error .meterError, some (m, sw, sn))
    | _ => (.error .valueError, none)
  | _ => (.error .valueError, none)

/-- The parameter of the online pseudo-sensor built by
`EnergomeraHassMqtt.set_online_sensor`. -/
def onlineParam : IecParam :=
  ⟨"IS_ONLINE", .s "Meter online status", some "connectivity",
   none, none, none, none, none⟩

/-- Models `EnergomeraHassMqtt.set_online_sensor`: assert the meter
identity (the assertion also fails on falsy, i.e. empty, components), build
the online pseudo binary sensor with `state_last_will_payload = False`, and
process it. -/
def setOnlineSensor (discPfx : String) (ids : Option (String × String × String))
    (state : Bool) (setupOnly : Bool) (bus : BusState) :
    Except PyErr (List MqttEvent × BusState) :=
  match ids with
  | none => .error .assertionError
  | some (m, sw, sn) =>
    if m = "" ∨ sw = "" ∨ sn = "" then .error .assertionError
    else
      let ctx : SensorCtx := ⟨true, discPfx, m, sw, sn⟩
      .ok (iecToHassProcess ctx onlineParam [.bool state] (some (.bool false)) setupOnly bus)

/-- The meter-side behaviour of one cycle. -/
structure MeterScript where
  authOk : Bool
  hello : List String
  readings : Nat → Option (List String)
  breakOk : Bool

/-- The state of the orchestrator that survives across cycles: the bus-side
state and the meter identity parsed in a previous cycle (if any). -/
structure AdminState where
  bus : BusState
  meterIds : Option (String × String × String)

/-- The per-parameter loop of `iec_read_admin`: read each parameter in
order (a `none` reading raises the timeout there) and run it through
`IecToHassSensor.process`.  Returns one event block per processed
parameter. -/
def loopParams (ctx : SensorCtx) (readings : Nat → Option (List String)) :
    Nat → List IecParam → BusState →
    Except PyErr Unit × List (List MqttEvent) × BusState
  | _, [], st => (.ok (), [], st)
  | i, p :: ps, st =>
    match readings i with
    | none => (.error .timeoutError, [], st)
    | some vs =>
      let (evs, st') := iecToHassProcess ctx p (vs.map PyVal.str) none false st
      let (res, blocks, st'') := loopParams ctx readings (i + 1) ps st'
      (res, evs :: blocks, st'')

/-- The `except TimeoutError` branch of `iec_read_admin`: publish the
online pseudo-sensor with value false (best effort) and re-raise the
timeout.  If the meter identity is unavailable, the assertion inside
`set_online_sensor` raises instead. -/
def timeoutExit (discPfx : String) (st : AdminState) (evs : List MqttEvent) :
    Except PyErr Unit × List MqttEvent × AdminState :=
  match setOnlineSensor discPfx st.meterIds false false st.bus with
  | .ok (evs', bus') => (.error .timeoutError, evs ++ evs', ⟨bus', st.meterIds⟩)
  | .error e => (.error e, evs, st)

/-- Models `EnergomeraHassMqtt.iec_read_admin` as a function from the
configuration, the meter script and the orchestrator state to the cycle
outcome, the MQTT event trace of the cycle and the new state.  The serial
transport itself produces no bus events; its `disconnect` in the `finally`
block is silent. -/
def iecReadAdmin (discPfx : String) (params : List IecParam)
    (script : MeterScript) (st : AdminState) :
    Except PyErr Unit × List MqttEvent × AdminState :=
  if ¬script.authOk then
    -- Timeout while connecting/authenticating, before identification.
    timeoutExit discPfx st []
  else
    match setMeterIds script.hello with
    | (.error e, assigned) =>
      -- Identification failed: the exception propagates before any bus
      -- interaction (it is not a TimeoutError).
      (.error e, [],
       ⟨st.bus, match assigned with | some x => some x | none => st.meterIds⟩)
    | (.ok (m, sw, sn), _) =>
      let st1 : AdminState := ⟨st.bus, some (m, sw, sn)⟩
      match setOnlineSensor discPfx st1.meterIds false true st1.bus with
      | .error e => (.error e, [], st1)
      | .ok (evSetup, bus1) =>
        let ctx : SensorCtx := ⟨false, discPfx, m, sw, sn⟩
        let (res, blocks, bus2) := loopParams ctx script.readings 0 params bus1
        let evs := evSetup ++ [MqttEvent.connect] ++ blocks.flatten
        match res with
        | .error e =>
          if e = .timeoutError then timeoutExit discPfx ⟨bus2, st1.meterIds⟩ evs
          else (.error e, evs, ⟨bus2, st1.meterIds⟩)
        | .ok () =>
          if ¬script.breakOk then timeoutExit discPfx ⟨bus2, st1.meterIds⟩ evs
          else
            match setOnlineSensor discPfx st1.meterIds true false bus2 with
            | .ok (evOnline, bus3) =>
              (.ok (), evs ++ evOnline, ⟨bus3, st1.meterIds⟩)
            | .error e => (.error e, evs, ⟨bus2, st1.meterIds⟩)

/-- The state topic of the online pseudo-sensor, against which the last
will and the offline publications are checked. -/
def onlineStateTopic (discPfx model serialNumber : String) : String :=
  topicBase discPfx "binary_sensor" (model ++ "_" ++ serialNumber)
    (model ++ "_" ++ serialNumber ++ "_" ++ "IS_ONLINE") ++ "/state"

/-- The state payload the online pseudo-sensor publishes for value false,
also used as its last-will payload. -/
def offlineStatePayload : String := statePayloadJson "OFF"

/-- The discovery (config) payload of the online pseudo-sensor. -/
def onlineConfigPayload (discPfx model swVersion serialNumber : String) : String :=
  binarySensorConfigJson model swVersion serialNumber onlineParam
    ⟨model ++ "_" ++ serialNumber,
     model ++ "_" ++ serialNumber ++ "_" ++ "IS_ONLINE",
     "Meter online status",
     topicBase discPfx "binary_sensor" (model ++ "_" ++ serialNumber)
       (model ++ "_" ++ serialNumber ++ "_" ++ "IS_ONLINE") ++ "/config",
     onlineStateTopic discPfx model serialNumber⟩

/-- The config topic of the online pseudo-sensor. -/
def onlineCfgTopic (discPfx model serialNumber : String) : String :=
  topicBase discPfx "binary_sensor" (model ++ "_" ++ serialNumber)
    (model ++ "_" ++ serialNumber ++ "_" ++ "IS_ONLINE") ++ "/config"

/-- Recognizes a state publish of the online pseudo-sensor carrying value
false: its state topic, the `OFF` payload and no retain flag. -/
def isOfflinePublish (discPfx model serialNumber : String) : MqttEvent → Bool
  | .publish t p r =>
    t == onlineStateTopic discPfx model serialNumber
      && p == offlineStatePayload && r == false
  | _ => false

/-! ## Auxiliary definitions used by the statements and proofs -/

/-- True when matching `k` literally against the text `t` fails on an
actual character mismatch (not by running out of text). -/
def litMismatch : List Char → List Char → Bool
  | [], _ => false
  | _ :: _, [] => false
  | k :: ks, c :: cs => if c = k then litMismatch ks cs else true

/-- The single-expression input `(double brace) energomera_prev_month (n) (double brace)`. -/
def prevMonthExpr (n : Nat) : String :=
  "\x7b\x7b energomera_prev_month (" ++ natStr n ++ ") \x7d\x7d"

/-- The single-expression input `(double brace) energomera_prev_day (n) (double brace)`. -/
def prevDayExpr (n : Nat) : String :=
  "\x7b\x7b energomera_prev_day (" ++ natStr n ++ ") \x7d\x7d"

/-- Repeated runs of the discovery-payload publication step of `process()`
with a fixed unique id and payload, collecting all publish events. -/
def stepRepeat (uid payloadJson configTopic : String) :
    Nat → Tracker → List MqttEvent × Tracker
  | 0, tr => ([], tr)
  | n + 1, tr =>
    let (evs, tr') := hassConfigPublishStep tr uid payloadJson configTopic
    let (evs2, tr'') := stepRepeat uid payloadJson configTopic n tr'
    (evs ++ evs2, tr'')

/-- The list of writes `interpolate()` performs for one parameter: one
`(key, interpolated value)` pair per string-valued field of the original
parameter, in field order. -/
def fieldWrites (today : PDate) : List (String × CfgVal) →
    Except PyErr (List (String × CfgVal))
  | [] => .ok []
  | (k, v) :: items =>
    match v with
    | .str s => do
      let s' ← interpolateValue today s
      let w ← fieldWrites today items
      .ok ((k, CfgVal.str s') :: w)
    | .other _ => fieldWrites today items

/-- Applying a list of dict assignments in order. -/
def applyWrites (cfg : PDict) (w : List (String × CfgVal)) : PDict :=
  w.foldl (fun c p => setAssoc c p.1 p.2) cfg

/-- The value of the last write to a key, if any. -/
def lastVal (w : List (String × CfgVal)) (k : String) : Option CfgVal :=
  (w.reverse.find? (fun q => q.1 = k)).map Prod.snd

/-- The keys of the string-valued fields of a parameter. -/
def strKeys (items : List (String × CfgVal)) : List String :=
  (items.filter (fun p => match p.2 with | .str _ => true | .other _ => false)).map
    Prod.fst

/-! ## Lemmas: decimal rendering and integer parsing -/

theorem natDigitsF_inv : ∀ (n f1 f2 : Nat), n < f1 → n < f2 →
    natDigitsF f1 n = natDigitsF f2 n := by
  intro n
  induction n using Nat.strong_induction_on with
  | _ n ih =>
    intro f1 f2 h1 h2
    cases f1 with
    | zero => omega
    | succ g1 =>
      cases f2 with
      | zero => omega
      | succ g2 =>
        simp only [natDigitsF]
        by_cases h10 : n < 10
        · simp [h10]
        · rw [if_neg h10, if_neg h10]
          have hd : n / 10 < n := Nat.div_lt_self (by omega) (by omega)
          rw [ih (n / 10) hd g1 g2 (by omega) (by omega)]

/-- The natural recursion satisfied by `natDigits`. -/
theorem natDigits_eq (n : Nat) : natDigits n =
    if n < 10 then [digitChar n]
    else natDigits (n / 10) ++ [digitChar (n % 10)] := by
  show natDigitsF (n + 1) n = _
  simp only [natDigitsF]
  by_cases h10 : n < 10
  · simp [h10]
  · rw [if_neg h10, if_neg h10]
    have hd : n / 10 < n := Nat.div_lt_self (by omega) (by omega)
    rw [natDigitsF_inv (n / 10) n (n / 10 + 1) (by omega) (by omega)]
    rfl

theorem digitChar_bounds (k : Nat) (h : k < 10) :
    48 ≤ (digitChar k).toNat ∧ (digitChar k).toNat ≤ 57 := by
  interval_cases k <;> decide

theorem digitVal_digitChar (k : Nat) (h : k < 10) : digitVal (digitChar k) = k := by
  interval_cases k <;> decide

theorem natDigits_ne_nil (n : Nat) : natDigits n ≠ [] := by
  rw [natDigits_eq]; split <;> simp

theorem mem_natDigits (n : Nat) : ∀ c ∈ natDigits n, ∃ k, k < 10 ∧ c = digitChar k := by
  induction n using Nat.strong_induction_on with
  | _ n ih =>
    intro c hc
    rw [natDigits_eq] at hc
    by_cases h10 : n < 10
    · rw [if_pos h10] at hc
      simp only [List.mem_singleton] at hc
      exact ⟨n, h10, hc⟩
    · rw [if_neg h10] at hc
      rcases List.mem_append.mp hc with h | h
      · exact ih (n / 10) (Nat.div_lt_self (by omega) (by omega)) c h
      · simp only [List.mem_singleton] at h
        exact ⟨n % 10, Nat.mod_lt _ (by omega), h⟩

/-- Every character of a rendered natural is an ASCII digit. -/
theorem natDigits_char_class (n : Nat) :
    ∀ c ∈ natDigits n, 48 ≤ c.toNat ∧ c.toNat ≤ 57 := by
  intro c hc
  obtain ⟨k, hk, rfl⟩ := mem_natDigits n c hc
  exact digitChar_bounds k hk

/-- ASCII digits are not whitespace, braces, newlines, underscores, signs
or commas. -/
theorem digit_char_props {c : Char} (h48 : 48 ≤ c.toNat) (h57 : c.toNat ≤ 57) :
    isWs c = false ∧ c ≠ '\x7b' ∧ c ≠ '\x7d' ∧ c ≠ '\n' ∧ c ≠ '_' ∧
      c ≠ '+' ∧ c ≠ '-' := by
  have hsp : c ≠ ' ' := fun he => absurd (he ▸ And.intro h48 h57) (by decide)
  have htb : c ≠ '\t' := fun he => absurd (he ▸ And.intro h48 h57) (by decide)
  have hnl : c ≠ '\n' := fun he => absurd (he ▸ And.intro h48 h57) (by decide)
  have hcr : c ≠ '\r' := fun he => absurd (he ▸ And.intro h48 h57) (by decide)
  have hvt : c ≠ '\x0b' := fun he => absurd (he ▸ And.intro h48 h57) (by decide)
  have hff : c ≠ '\x0c' := fun he => absurd (he ▸ And.intro h48 h57) (by decide)
  refine ⟨by simp [isWs, hsp, htb, hnl, hcr, hvt, hff], ?_, ?_, hnl, ?_, ?_, ?_⟩
  · exact fun he => absurd (he ▸ And.intro h48 h57) (by decide)
  · exact fun he => absurd (he ▸ And.intro h48 h57) (by decide)
  · exact fun he => absurd (he ▸ And.intro h48 h57) (by decide)
  · exact fun he => absurd (he ▸ And.intro h48 h57) (by decide)
  · exact fun he => absurd (he ▸ And.intro h48 h57) (by decide)

theorem digitsCore_digits : ∀ (ds : List Char) (acc : Nat),
    (∀ c ∈ ds, 48 ≤ c.toNat ∧ c.toNat ≤ 57) →
    digitsCore acc ds = some (ds.foldl (fun a c => a * 10 + digitVal c) acc) := by
  intro ds
  induction ds with
  | nil => intro acc _; rfl
  | cons c rest ih =>
    intro acc h
    have hc := h c (List.mem_cons_self c rest)
    have hne : c ≠ '_' := (digit_char_props hc.1 hc.2).2.2.2.2.1
    have hdig : isDigitCh c = true := by
      simp [isDigitCh]; omega
    unfold digitsCore
    rw [if_neg hne, hdig]
    simp only [if_true, List.foldl_cons]
    exact ih _ (fun c hc => h c (List.mem_cons_of_mem _ hc))

theorem natDigits_foldl (n : Nat) : ∀ acc : Nat,
    (natDigits n).foldl (fun a c => a * 10 + digitVal c) acc =
      acc * 10 ^ (natDigits n).length + n := by
  induction n using Nat.strong_induction_on with
  | _ n ih =>
    intro acc
    rw [natDigits_eq]
    by_cases h10 : n < 10
    · simp [h10, digitVal_digitChar n h10]
    · rw [if_neg h10, List.foldl_append,
        ih (n / 10) (Nat.div_lt_self (by omega) (by omega)) acc]
      simp only [List.foldl_cons, List.foldl_nil, List.length_append,
        List.length_singleton, digitVal_digitChar (n % 10) (Nat.mod_lt _ (by omega))]
      calc (acc * 10 ^ (natDigits (n / 10)).length + n / 10) * 10 + n % 10
          = acc * (10 ^ (natDigits (n / 10)).length * 10) +
              (n / 10 * 10 + n % 10) := by ring
        _ = acc * 10 ^ ((natDigits (n / 10)).length + 1) + n := by
              rw [pow_succ]
              exact congrArg
                (fun t => acc * (10 ^ (natDigits (n / 10)).length * 10) + t)
                (by omega : n / 10 * 10 + n % 10 = n)

theorem digitsVal_natDigits (n : Nat) : digitsVal (natDigits n) = some n := by
  rcases hcons : natDigits n with _ | ⟨c, rest⟩
  · exact absurd hcons (natDigits_ne_nil n)
  · have hc : 48 ≤ c.toNat ∧ c.toNat ≤ 57 :=
      natDigits_char_class n c (by rw [hcons]; exact List.mem_cons_self c rest)
    have hdig : isDigitCh c = true := by simp [isDigitCh]; omega
    have h3 := natDigits_foldl n 0
    rw [hcons] at h3
    simp only [List.foldl_cons, Nat.zero_mul, Nat.zero_add] at h3
    simp only [digitsVal, hdig, if_pos rfl, if_true]
    rw [digitsCore_digits rest (digitVal c)
      (fun c' hc' => natDigits_char_class n c' (by rw [hcons]; exact List.mem_cons_of_mem _ hc'))]
    rw [h3]

theorem pyParseInt_natDigits (n : Nat) : pyParseInt (natDigits n) = some (n : Int) := by
  rcases hcons : natDigits n with _ | ⟨c, rest⟩
  · exact absurd hcons (natDigits_ne_nil n)
  · have hc : 48 ≤ c.toNat ∧ c.toNat ≤ 57 :=
      natDigits_char_class n c (by rw [hcons]; exact List.mem_cons_self c rest)
    have hp := (digit_char_props hc.1 hc.2).2.2.2.2.2
    have hdv := digitsVal_natDigits n
    rw [hcons] at hdv
    simp only [pyParseInt, if_neg hp.1, if_neg hp.2, hdv, Option.map_some]
    rfl

theorem dropWhile_eq_self_of {p : Char → Bool} :
    ∀ {cs : List Char}, (∀ c ∈ cs, p c = false) → cs.dropWhile p = cs := by
  intro cs h
  cases cs with
  | nil => rfl
  | cons c rest => simp [List.dropWhile, h c (List.mem_cons_self c rest)]

theorem stripWs_eq_self {cs : List Char} (h : ∀ c ∈ cs, isWs c = false) :
    stripWs cs = cs := by
  unfold stripWs
  rw [dropWhile_eq_self_of h,
    dropWhile_eq_self_of (fun c hc => h c (List.mem_reverse.mp hc)),
    List.reverse_reverse]

/-! ## Lemmas: the substitution scanner -/

theorem dropWs_length (cs : List Char) : (dropWs cs).length ≤ cs.length := by
  induction cs with
  | nil => exact Nat.le_refl _
  | cons c rest ih =>
    by_cases h : isWs c
    · simp only [dropWs, List.dropWhile_cons, h, if_true]
      exact Nat.le_succ_of_le ih
    · simp [dropWs, List.dropWhile_cons, h]

theorem dropLit_length : ∀ (k cs r : List Char), dropLit k cs = some r →
    r.length ≤ cs.length := by
  intro k
  induction k with
  | nil =>
    intro cs r h
    simp only [dropLit, Option.some.injEq] at h
    exact h ▸ Nat.le_refl _
  | cons k0 ks ih =>
    intro cs r h
    cases cs with
    | nil => exact absurd h (by simp [dropLit])
    | cons c cs' =>
      unfold dropLit at h
      by_cases he : c = k0
      · rw [if_pos he] at h
        exact Nat.le_succ_of_le (ih cs' r h)
      · rw [if_neg he] at h
        exact absurd h (by simp)

theorem wsThenClose_length {cs r : List Char} (h : wsThenClose cs = some r) :
    r.length ≤ cs.length := by
  unfold wsThenClose at h
  split at h
  next c1 c2 rest heq =>
    split at h
    · injection h with h
      subst h
      have hlen := dropWs_length cs
      rw [heq] at hlen
      simp only [List.length_cons] at hlen
      omega
    · exact absurd h (by simp)
  next => exact absurd h (by simp)

theorem captureArg_length : ∀ (cs : List Char) {a r : List Char},
    captureArg cs = some (a, r) → r.length ≤ cs.length := by
  intro cs
  induction cs with
  | nil => intro a r h; exact absurd h (by simp [captureArg])
  | cons c cs' ih =>
    intro a r h
    unfold captureArg at h
    rcases hw : wsThenClose (c :: cs') with _ | rest <;> rw [hw] at h
    · by_cases hnl : c = '\n'
      · rw [if_pos hnl] at h
        exact absurd h (by simp)
      · rw [if_neg hnl] at h
        rcases Option.map_eq_some'.mp h with ⟨⟨a', r'⟩, hc, heq⟩
        have : r = r' := by
          have := congrArg Prod.snd heq
          simpa using this.symm
        exact this ▸ Nat.le_succ_of_le (ih hc)
    · have heq : rest = r := by
        have := congrArg Prod.snd (Option.some.injEq _ _ ▸ h :
          (([], rest) : List Char × List Char) = (a, r))
        simpa using this
      exact heq ▸ wsThenClose_length hw

theorem matchKeyAt_length {key cs a r : List Char}
    (h : matchKeyAt key cs = some (a, r)) : r.length ≤ cs.length := by
  unfold matchKeyAt at h
  rcases hdl : dropLit key (dropWs cs) with _ | rest <;> rw [hdl] at h
  · exact absurd h (by simp)
  · calc r.length ≤ (dropWs rest).length := captureArg_length _ h
      _ ≤ rest.length := dropWs_length rest
      _ ≤ (dropWs cs).length := dropLit_length key (dropWs cs) rest hdl
      _ ≤ cs.length := dropWs_length cs

theorem reSubF_inv (key : List Char) (repl : List Char → Except PyErr (List Char)) :
    ∀ (f1 : Nat) (cs : List Char) (f2 : Nat), cs.length < f1 → cs.length < f2 →
    reSubF key repl f1 cs = reSubF key repl f2 cs := by
  intro f1
  induction f1 with
  | zero => intro cs f2 h1 _; omega
  | succ g1 ih =>
    intro cs f2 h1 h2
    cases f2 with
    | zero => omega
    | succ g2 =>
      cases cs with
      | nil => rfl
      | cons c cs' =>
        simp only [List.length_cons] at h1 h2
        unfold reSubF
        split
        · rcases hm : matchKeyAt key cs'.tail with _ | ⟨arg, rest⟩
          · dsimp only
            rw [ih cs' g2 (by omega) (by omega)]
          · have hr : rest.length ≤ cs'.length := by
              calc rest.length ≤ cs'.tail.length := matchKeyAt_length hm
                _ ≤ cs'.length := by
                    rw [List.length_tail]; omega
            dsimp only
            rw [ih rest g2 (by omega) (by omega)]
        · rw [ih cs' g2 (by omega) (by omega)]

theorem reSub_nil (key : List Char) (repl : List Char → Except PyErr (List Char)) :
    reSub key repl [] = .ok [] := rfl

theorem reSubF_succ_cons (key : List Char) (repl : List Char → Except PyErr (List Char))
    (fuel : Nat) (c : Char) (cs : List Char) :
    reSubF key repl (fuel + 1) (c :: cs) =
    (if c = '\x7b' && cs.head? = some '\x7b' then
      match matchKeyAt key cs.tail with
      | some (arg, rest) => do
        let r ← repl arg
        let t ← reSubF key repl fuel rest
        Except.ok (r ++ t)
      | none => do
        let t ← reSubF key repl fuel cs
        Except.ok (c :: t)
    else do
      let t ← reSubF key repl fuel cs
      Except.ok (c :: t)) := rfl

theorem reSub_cons_match {key cs arg rest : List Char} {c : Char}
    (repl : List Char → Except PyErr (List Char))
    (hc : c = '\x7b') (hh : cs.head? = some '\x7b')
    (hm : matchKeyAt key cs.tail = some (arg, rest)) :
    reSub key repl (c :: cs) = (do
      let r ← repl arg
      let t ← reSub key repl rest
      Except.ok (r ++ t)) := by
  unfold reSub
  simp only [List.length_cons]
  rw [reSubF_succ_cons, if_pos (by simp [hc, hh]), hm]
  dsimp only
  have hr : rest.length ≤ cs.length := by
    calc rest.length ≤ cs.tail.length := matchKeyAt_length hm
      _ ≤ cs.length := by rw [List.length_tail]; omega
  rw [reSubF_inv key repl (cs.length + 1) rest (rest.length + 1) (by omega) (by omega)]

theorem reSub_cons_adv {key cs : List Char} {c : Char}
    (repl : List Char → Except PyErr (List Char))
    (h : ¬(c = '\x7b' ∧ cs.head? = some '\x7b') ∨ matchKeyAt key cs.tail = none) :
    reSub key repl (c :: cs) = (reSub key repl cs).map (fun t => c :: t) := by
  unfold reSub
  simp only [List.length_cons]
  rw [reSubF_succ_cons]
  have hstep :
      (do
        let t ← reSubF key repl (cs.length + 1) cs
        Except.ok (c :: t)) =
      Except.map (fun t => c :: t) (reSubF key repl (cs.length + 1) cs) := by
    cases reSubF key repl (cs.length + 1) cs <;> rfl
  rcases h with h | h
  · rw [if_neg (by simpa using h)]
    exact hstep
  · split
    · rw [h]
      dsimp only
      exact hstep
    · exact hstep

theorem reSub_no_open {key : List Char} {repl : List Char → Except PyErr (List Char)}
    {cs : List Char} (h : ∀ c ∈ cs, c ≠ '\x7b') :
    reSub key repl cs = .ok cs := by
  induction cs with
  | nil => rfl
  | cons c cs' ih =>
    rw [reSub_cons_adv repl
      (Or.inl (fun hcp => h c (List.mem_cons_self c cs') hcp.1))]
    rw [ih (fun c' hc' => h c' (List.mem_cons_of_mem _ hc'))]
    rfl

theorem dropWs_cons_ws {c : Char} {cs : List Char} (h : isWs c = true) :
    dropWs (c :: cs) = dropWs cs := by
  simp [dropWs, List.dropWhile_cons, h]

theorem dropWs_cons_not {c : Char} {cs : List Char} (h : isWs c = false) :
    dropWs (c :: cs) = c :: cs := by
  simp [dropWs, List.dropWhile_cons, h]

theorem dropLit_self : ∀ (k r : List Char), dropLit k (k ++ r) = some r := by
  intro k
  induction k with
  | nil => intro r; rfl
  | cons c ks ih => intro r; simp [dropLit, ih]

theorem litMismatch_dropLit : ∀ (k t : List Char), litMismatch k t = true →
    ∀ z, dropLit k (t ++ z) = none := by
  intro k
  induction k with
  | nil => intro t h; simp [litMismatch] at h
  | cons c ks ih =>
    intro t h z
    cases t with
    | nil => simp [litMismatch] at h
    | cons t0 ts =>
      unfold litMismatch at h
      by_cases he : t0 = c
      · rw [if_pos he] at h
        simp only [List.cons_append, dropLit, if_pos he]
        exact ih ts h z
      · simp only [List.cons_append, dropLit, if_neg he]

theorem wsThenClose_close (rest : List Char) :
    wsThenClose ('\x7d' :: '\x7d' :: rest) = some rest := by
  unfold wsThenClose
  rw [dropWs_cons_not (by decide)]
  simp

theorem wsThenClose_ws {c : Char} {cs : List Char} (h : isWs c = true) :
    wsThenClose (c :: cs) = wsThenClose cs := by
  unfold wsThenClose
  rw [dropWs_cons_ws h]

theorem wsThenClose_plain {c : Char} {cs : List Char} (h1 : isWs c = false)
    (h2 : c ≠ '\x7d') : wsThenClose (c :: cs) = none := by
  unfold wsThenClose
  rw [dropWs_cons_not h1]
  cases cs with
  | nil => rfl
  | cons c2 rest => exact if_neg (fun hand => h2 hand.1)

theorem captureArg_cons (c : Char) (cs : List Char) :
    captureArg (c :: cs) =
    (match wsThenClose (c :: cs) with
      | some rest => some ([], rest)
      | none =>
        if c = '\n' then none
        else (captureArg cs).map (fun p => (c :: p.1, p.2))) := rfl

theorem captureArg_stop {cs r : List Char} (h : wsThenClose cs = some r) :
    captureArg cs = some ([], r) := by
  cases cs with
  | nil => exact absurd h (by simp [wsThenClose, dropWs])
  | cons c cs' =>
    rw [captureArg_cons, h]

theorem captureArg_plain : ∀ (as rest : List Char),
    (∀ c ∈ as, isWs c = false ∧ c ≠ '\x7d' ∧ c ≠ '\n') →
    captureArg (as ++ rest) = (captureArg rest).map (fun p => (as ++ p.1, p.2)) := by
  intro as
  induction as with
  | nil =>
    intro rest _
    simp only [List.nil_append]
    cases captureArg rest with
    | none => rfl
    | some p => simp
  | cons a as' ih =>
    intro rest h
    have ha := h a (List.mem_cons_self a as')
    simp only [List.cons_append]
    rw [captureArg_cons, wsThenClose_plain ha.1 ha.2.1]
    dsimp only
    rw [if_neg ha.2.2, ih rest (fun c hc => h c (List.mem_cons_of_mem _ hc))]
    cases captureArg rest with
    | none => rfl
    | some p => simp

theorem matchKeyAt_self {key : List Char} {c0 : Char} {ks : List Char}
    (hk : key = c0 :: ks) (hc0 : isWs c0 = false) (Y : List Char) :
    matchKeyAt key (' ' :: (key ++ Y)) = captureArg (dropWs Y) := by
  unfold matchKeyAt
  rw [dropWs_cons_ws (by decide)]
  have h1 : dropWs (key ++ Y) = key ++ Y := by
    rw [hk, List.cons_append]
    exact dropWs_cons_not hc0
  rw [h1, dropLit_self]

theorem matchKeyAt_mismatch {key t : List Char} {c0 : Char} {ts : List Char}
    (ht : t = c0 :: ts) (hc0 : isWs c0 = false)
    (hmm : litMismatch key t = true) (Y : List Char) :
    matchKeyAt key (' ' :: (t ++ Y)) = none := by
  unfold matchKeyAt
  rw [dropWs_cons_ws (by decide)]
  have h1 : dropWs (t ++ Y) = t ++ Y := by
    rw [ht, List.cons_append]
    exact dropWs_cons_not hc0
  rw [h1, litMismatch_dropLit key t hmm Y]

/-! ## Lemmas: the expression argument parser -/

theorem exprParamInt_empty (dflt : Int) : exprParamInt [] dflt = .ok dflt := rfl

/-- The parenthesized decimal argument parses to its value. -/
theorem exprParamInt_digits (n : Nat) (dflt : Int) :
    exprParamInt ('(' :: (natDigits n ++ [')'])) dflt = .ok (n : Int) := by
  unfold exprParamInt
  have hlast : ('(' :: (natDigits n ++ [')'])).getLast? = some ')' := by
    rw [show ('(' :: (natDigits n ++ [')'])) = ('(' :: natDigits n) ++ [')'] by simp]
    exact List.getLast?_concat _
  have hhead : ('(' :: (natDigits n ++ [')'])).head? = some '(' := rfl
  rw [if_neg (by simp)]
  rw [if_neg (by simp [hlast, hhead])]
  have hdrop : ('(' :: (natDigits n ++ [')'])).drop 1 = natDigits n ++ [')'] := rfl
  rw [hdrop, List.dropLast_concat]
  have hstrip : stripWs (natDigits n) = natDigits n :=
    stripWs_eq_self (fun c hc =>
      (digit_char_props (natDigits_char_class n c hc).1
        (natDigits_char_class n c hc).2).1)
  rw [hstrip]
  rw [if_neg (by
    rcases hcons : natDigits n with _ | ⟨c, rest⟩
    · exact absurd hcons (natDigits_ne_nil n)
    · simp)]
  rw [pyParseInt_natDigits]

/-! ## Lemmas: single-expression substitution -/

/-- One pass over a single well-formed expression with a non-empty argument
group: the result is exactly what the replacement callable yields. -/
theorem reSub_single_expr (key : List Char) (repl : List Char → Except PyErr (List Char))
    {c0 : Char} {ks : List Char} (hk : key = c0 :: ks) (hc0 : isWs c0 = false)
    (arg : List Char) {a0 : Char} {args : List Char} (hne : arg = a0 :: args)
    (hplain : ∀ c ∈ arg, isWs c = false ∧ c ≠ '\x7d' ∧ c ≠ '\n') :
    reSub key repl
      ('\x7b' :: '\x7b' :: ' ' :: (key ++ (' ' :: (arg ++ [' ', '\x7d', '\x7d'])))) =
    repl arg := by
  have hm : matchKeyAt key
      ((('\x7b' : Char) :: ' ' :: (key ++ (' ' :: (arg ++ [' ', '\x7d', '\x7d'])))).tail) =
      some (arg, []) := by
    show matchKeyAt key (' ' :: (key ++ (' ' :: (arg ++ [' ', '\x7d', '\x7d'])))) = _
    rw [matchKeyAt_self hk hc0]
    have ha0 : isWs a0 = false :=
      (hplain a0 (by rw [hne]; exact List.mem_cons_self _ _)).1
    have hdw : dropWs (' ' :: (arg ++ [' ', '\x7d', '\x7d'])) =
        arg ++ [' ', '\x7d', '\x7d'] := by
      rw [dropWs_cons_ws (by decide), hne, List.cons_append]
      exact dropWs_cons_not ha0
    rw [hdw, captureArg_plain arg [' ', '\x7d', '\x7d'] hplain]
    rw [captureArg_stop (by rw [wsThenClose_ws (by decide)]; exact wsThenClose_close [])]
    simp
  rw [reSub_cons_match repl rfl (by rfl) hm, reSub_nil]
  cases hre : repl arg with
  | error e => rfl
  | ok v =>
    show Except.ok (v ++ []) = Except.ok v
    rw [List.append_nil]

/-- One pass over a single well-formed expression with an omitted argument:
the result is the replacement for the empty group. -/
theorem reSub_noarg_expr (key : List Char) (repl : List Char → Except PyErr (List Char))
    {c0 : Char} {ks : List Char} (hk : key = c0 :: ks) (hc0 : isWs c0 = false) :
    reSub key repl ('\x7b' :: '\x7b' :: ' ' :: (key ++ [' ', '\x7d', '\x7d'])) =
    repl [] := by
  have hm : matchKeyAt key
      ((('\x7b' : Char) :: ' ' :: (key ++ [' ', '\x7d', '\x7d'])).tail) =
      some ([], []) := by
    show matchKeyAt key (' ' :: (key ++ [' ', '\x7d', '\x7d'])) = _
    rw [matchKeyAt_self hk hc0]
    rw [show dropWs [' ', '\x7d', '\x7d'] = ['\x7d', '\x7d'] by decide]
    exact captureArg_stop (wsThenClose_close [])
  rw [reSub_cons_match repl rfl (by rfl) hm, reSub_nil]
  cases hre : repl [] with
  | error e => rfl
  | ok v =>
    show Except.ok (v ++ []) = Except.ok v
    rw [List.append_nil]

/-- One pass whose key mismatches the expression's keyword leaves the text
untouched (provided the rest of the text has no further opening braces). -/
theorem reSub_skip_expr (key : List Char) (repl : List Char → Except PyErr (List Char))
    {t : List Char} {c0 : Char} {ts : List Char}
    (ht : t = c0 :: ts) (hc0 : isWs c0 = false)
    (hmm : litMismatch key t = true) (Y : List Char)
    (hnoY : ∀ c ∈ Y, c ≠ '\x7b') (hnot : ∀ c ∈ t, c ≠ '\x7b') :
    reSub key repl ('\x7b' :: '\x7b' :: ' ' :: (t ++ Y)) =
    .ok ('\x7b' :: '\x7b' :: ' ' :: (t ++ Y)) := by
  have hm : matchKeyAt key ((('\x7b' : Char) :: ' ' :: (t ++ Y)).tail) = none := by
    show matchKeyAt key (' ' :: (t ++ Y)) = none
    exact matchKeyAt_mismatch ht hc0 hmm Y
  rw [reSub_cons_adv repl (Or.inr hm)]
  rw [reSub_cons_adv repl (Or.inl (fun hcp => by
    have := hcp.2
    simp at this))]
  rw [reSub_no_open (by
    intro c hc
    rcases List.mem_cons.mp hc with rfl | hc
    · decide
    · rcases List.mem_append.mp hc with hc | hc
      · exact hnot c hc
      · exact hnoY c hc)]
  rfl

/-! ## Lemmas: interpolation of the recognized expressions -/

theorem pad2_char_class (n : Nat) : ∀ c ∈ pad2 n, 48 ≤ c.toNat ∧ c.toNat ≤ 57 := by
  intro c hc
  unfold pad2 at hc
  split at hc
  · rcases List.mem_cons.mp hc with rfl | hc
    · exact ⟨by decide, by decide⟩
    · exact natDigits_char_class n c hc
  · exact natDigits_char_class n c hc

theorem fmtMonthYear_no_open (d : PDate) : ∀ c ∈ fmtMonthYear d, c ≠ '\x7b' := by
  intro c hc
  unfold fmtMonthYear at hc
  rcases List.mem_append.mp hc with hc | hc
  · have h := pad2_char_class d.month c hc
    exact (digit_char_props h.1 h.2).2.1
  · rcases List.mem_cons.mp hc with rfl | hc
    · decide
    · have h := pad2_char_class _ c hc
      exact (digit_char_props h.1 h.2).2.1

theorem fmtDayMonthYear_eq (d : PDate) :
    fmtDayMonthYear d = pad2 d.day ++ '.' :: fmtMonthYear d := by
  unfold fmtDayMonthYear fmtMonthYear
  simp

theorem fmtDayMonthYear_no_open (d : PDate) : ∀ c ∈ fmtDayMonthYear d, c ≠ '\x7b' := by
  intro c hc
  rw [fmtDayMonthYear_eq] at hc
  rcases List.mem_append.mp hc with hc | hc
  · have h := pad2_char_class d.day c hc
    exact (digit_char_props h.1 h.2).2.1
  · rcases List.mem_cons.mp hc with rfl | hc
    · decide
    · exact fmtMonthYear_no_open d c hc

/-- The characters of the expression argument `(n)` are plain. -/
theorem parenArg_plain (n : Nat) :
    ∀ c ∈ ('(' :: (natDigits n ++ [')'])), isWs c = false ∧ c ≠ '\x7d' ∧ c ≠ '\n' := by
  intro c hc
  rcases List.mem_cons.mp hc with rfl | hc
  · exact ⟨by decide, by decide, by decide⟩
  · rcases List.mem_append.mp hc with hc | hc
    · have h := natDigits_char_class n c hc
      have hp := digit_char_props h.1 h.2
      exact ⟨hp.1, hp.2.2.1, hp.2.2.2.1⟩
    · rcases List.mem_singleton.mp hc with rfl
      exact ⟨by decide, by decide, by decide⟩

theorem prevMonthExpr_data (n : Nat) : (prevMonthExpr n).data =
    '\x7b' :: '\x7b' :: ' ' ::
      (keyPrevMonth ++ (' ' :: (('(' :: (natDigits n ++ [')'])) ++ [' ', '\x7d', '\x7d']))) := by
  unfold prevMonthExpr natStr
  rw [String.data_append, String.data_append]
  rw [show ("\x7b\x7b energomera_prev_month (" : String).data =
    ('\x7b' :: '\x7b' :: ' ' :: (keyPrevMonth ++ [' ', '('])) from by decide]
  rw [show ((⟨natDigits n⟩ : String).data) = natDigits n from rfl]
  rw [show (") \x7d\x7d" : String).data = [')', ' ', '\x7d', '\x7d'] from by decide]
  simp

theorem prevDayExpr_data (n : Nat) : (prevDayExpr n).data =
    '\x7b' :: '\x7b' :: ' ' ::
      (keyPrevDay ++ (' ' :: (('(' :: (natDigits n ++ [')'])) ++ [' ', '\x7d', '\x7d']))) := by
  unfold prevDayExpr natStr
  rw [String.data_append, String.data_append]
  rw [show ("\x7b\x7b energomera_prev_day (" : String).data =
    ('\x7b' :: '\x7b' :: ' ' :: (keyPrevDay ++ [' ', '('])) from by decide]
  rw [show ((⟨natDigits n⟩ : String).data) = natDigits n from rfl]
  rw [show (") \x7d\x7d" : String).data = [')', ' ', '\x7d', '\x7d'] from by decide]
  simp

/-- The month pass replaces the month expression with the formatted date. -/
theorem monthPass_monthExpr (d : PDate) (n : Nat) :
    reSub keyPrevMonth (replPrevMonth d) (prevMonthExpr n).data =
    .ok (fmtMonthYear (subMonths d (n : Int))) := by
  rw [prevMonthExpr_data]
  rw [reSub_single_expr keyPrevMonth (replPrevMonth d)
    (by decide : keyPrevMonth = 'e' :: "nergomera_prev_month".data) (by decide)
    ('(' :: (natDigits n ++ [')'])) rfl (parenArg_plain n)]
  unfold replPrevMonth
  rw [exprParamInt_digits]
  rfl

/-- The month pass leaves the day expression untouched. -/
theorem monthPass_dayExpr (d : PDate) (n : Nat) :
    reSub keyPrevMonth (replPrevMonth d) (prevDayExpr n).data =
    .ok ((prevDayExpr n).data) := by
  rw [prevDayExpr_data]
  exact reSub_skip_expr keyPrevMonth (replPrevMonth d)
    (by decide : keyPrevDay = 'e' :: "nergomera_prev_day".data) (by decide)
    (by decide) _
    (by
      intro c hc
      rcases List.mem_cons.mp hc with rfl | hc
      · decide
      · rcases List.mem_append.mp hc with hc | hc
        · have h := parenArg_plain n c hc
          have hcls : 40 ≤ c.toNat ∧ c.toNat ≤ 57 := by
            rcases List.mem_cons.mp hc with rfl | hc2
            · exact ⟨by decide, by decide⟩
            · rcases List.mem_append.mp hc2 with hc2 | hc2
              · have hb := natDigits_char_class n c hc2
                exact ⟨by omega, hb.2⟩
              · rcases List.mem_singleton.mp hc2 with rfl
                exact ⟨by decide, by decide⟩
          exact fun he => absurd (he ▸ hcls) (by decide)
        · simp only [List.mem_cons] at hc
          rcases hc with rfl | rfl | rfl | h
          · decide
          · decide
          · decide
          · simp at h)
    (by decide)

/-- The day pass replaces the day expression with the formatted date. -/
theorem dayPass_dayExpr (d : PDate) (n : Nat) :
    reSub keyPrevDay (replPrevDay d) (prevDayExpr n).data =
    .ok (fmtDayMonthYear (subDays d (n : Int))) := by
  rw [prevDayExpr_data]
  rw [reSub_single_expr keyPrevDay (replPrevDay d)
    (by decide : keyPrevDay = 'e' :: "nergomera_prev_day".data) (by decide)
    ('(' :: (natDigits n ++ [')'])) rfl (parenArg_plain n)]
  unfold replPrevDay
  rw [exprParamInt_digits]
  rfl

/-- Full interpolation of the single month expression with argument. -/
theorem interpolateValue_monthExpr (d : PDate) (n : Nat) :
    interpolateValue d (prevMonthExpr n) =
    .ok ⟨fmtMonthYear (subMonths d (n : Int))⟩ := by
  unfold interpolateValue interpolateValueL
  rw [monthPass_monthExpr]
  show Except.map _ (reSub keyPrevDay (replPrevDay d) (fmtMonthYear (subMonths d (n : Int)))) = _
  rw [reSub_no_open (fmtMonthYear_no_open _)]
  rfl

/-- Full interpolation of the single day expression with argument. -/
theorem interpolateValue_dayExpr (d : PDate) (n : Nat) :
    interpolateValue d (prevDayExpr n) =
    .ok ⟨fmtDayMonthYear (subDays d (n : Int))⟩ := by
  unfold interpolateValue interpolateValueL
  rw [monthPass_dayExpr]
  show Except.map _ (reSub keyPrevDay (replPrevDay d) ((prevDayExpr n).data)) = _
  rw [dayPass_dayExpr]
  rfl

/-- Full interpolation of the month expression with the argument omitted. -/
theorem interpolateValue_monthDefault (d : PDate) :
    interpolateValue d "\x7b\x7b energomera_prev_month \x7d\x7d" =
    .ok ⟨fmtMonthYear (subMonths d 1)⟩ := by
  unfold interpolateValue interpolateValueL
  rw [show ("\x7b\x7b energomera_prev_month \x7d\x7d" : String).data =
    '\x7b' :: '\x7b' :: ' ' :: (keyPrevMonth ++ [' ', '\x7d', '\x7d']) from by decide]
  rw [reSub_noarg_expr keyPrevMonth (replPrevMonth d)
    (by decide : keyPrevMonth = 'e' :: "nergomera_prev_month".data) (by decide)]
  show Except.map _ (reSub keyPrevDay (replPrevDay d) (fmtMonthYear (subMonths d 1))) = _
  rw [reSub_no_open (fmtMonthYear_no_open _)]
  rfl

/-- Full interpolation of the day expression with the argument omitted. -/
theorem interpolateValue_dayDefault (d : PDate) :
    interpolateValue d "\x7b\x7b energomera_prev_day \x7d\x7d" =
    .ok ⟨fmtDayMonthYear (subDays d 1)⟩ := by
  unfold interpolateValue interpolateValueL
  rw [show ("\x7b\x7b energomera_prev_day \x7d\x7d" : String).data =
    '\x7b' :: '\x7b' :: ' ' :: (keyPrevDay ++ [' ', '\x7d', '\x7d']) from by decide]
  have hskip : reSub keyPrevMonth (replPrevMonth d)
      ('\x7b' :: '\x7b' :: ' ' :: (keyPrevDay ++ [' ', '\x7d', '\x7d'])) =
      .ok ('\x7b' :: '\x7b' :: ' ' :: (keyPrevDay ++ [' ', '\x7d', '\x7d'])) :=
    reSub_skip_expr keyPrevMonth (replPrevMonth d)
      (by decide : keyPrevDay = 'e' :: "nergomera_prev_day".data) (by decide)
      (by decide) _ (by decide) (by decide)
  rw [hskip]
  show Except.map _ (reSub keyPrevDay (replPrevDay d)
    ('\x7b' :: '\x7b' :: ' ' :: (keyPrevDay ++ [' ', '\x7d', '\x7d']))) = _
  rw [reSub_noarg_expr keyPrevDay (replPrevDay d)
    (by decide : keyPrevDay = 'e' :: "nergomera_prev_day".data) (by decide)]
  rfl

/-! ## Lemmas: the empty bracket-pair argument -/

theorem dropWhile_isWs_replicate (k : Nat) :
    (List.replicate k ' ').dropWhile isWs = [] := by
  induction k with
  | zero => rfl
  | succ k ih =>
    rw [List.replicate_succ, List.dropWhile_cons, if_pos (by decide)]
    exact ih

theorem stripWs_replicate (k : Nat) : stripWs (List.replicate k ' ') = [] := by
  unfold stripWs
  rw [dropWhile_isWs_replicate]
  rfl

/-- A bracket pair enclosing only whitespace yields the default value, like
the empty group: the `()` and `( )` spellings of an empty argument. -/
theorem exprParamInt_wsParen (k : Nat) (dflt : Int) :
    exprParamInt ('(' :: (List.replicate k ' ' ++ [')'])) dflt = .ok dflt := by
  unfold exprParamInt
  have hlast : ('(' :: (List.replicate k ' ' ++ [')'])).getLast? = some ')' := by
    rw [show ('(' :: (List.replicate k ' ' ++ [')'])) =
      ('(' :: List.replicate k ' ') ++ [')'] by simp]
    exact List.getLast?_concat _
  rw [if_neg (by simp)]
  rw [if_neg (by simp [hlast, List.head?])]
  have hdrop : ('(' :: (List.replicate k ' ' ++ [')'])).drop 1 =
      List.replicate k ' ' ++ [')'] := rfl
  rw [hdrop, List.dropLast_concat, stripWs_replicate]
  rfl

/-- Full interpolation of the month expression with the empty `()`
argument: the default of one month applies. -/
theorem interpolateValue_monthEmptyArg (d : PDate) :
    interpolateValue d "\x7b\x7b energomera_prev_month () \x7d\x7d" =
    .ok ⟨fmtMonthYear (subMonths d 1)⟩ := by
  unfold interpolateValue interpolateValueL
  rw [show ("\x7b\x7b energomera_prev_month () \x7d\x7d" : String).data =
    '\x7b' :: '\x7b' :: ' ' ::
      (keyPrevMonth ++ (' ' :: (['(', ')'] ++ [' ', '\x7d', '\x7d']))) from by decide]
  rw [reSub_single_expr keyPrevMonth (replPrevMonth d)
    (by decide : keyPrevMonth = 'e' :: "nergomera_prev_month".data) (by decide)
    ['(', ')'] rfl (by decide)]
  rw [show replPrevMonth d ['(', ')'] = .ok (fmtMonthYear (subMonths d 1)) from rfl]
  show Except.map _ (reSub keyPrevDay (replPrevDay d) (fmtMonthYear (subMonths d 1))) = _
  rw [reSub_no_open (fmtMonthYear_no_open _)]
  rfl

/-- Full interpolation of the day expression with the empty `()` argument:
the default of one day applies. -/
theorem interpolateValue_dayEmptyArg (d : PDate) :
    interpolateValue d "\x7b\x7b energomera_prev_day () \x7d\x7d" =
    .ok ⟨fmtDayMonthYear (subDays d 1)⟩ := by
  unfold interpolateValue interpolateValueL
  rw [show ("\x7b\x7b energomera_prev_day () \x7d\x7d" : String).data =
    '\x7b' :: '\x7b' :: ' ' ::
      (keyPrevDay ++ (' ' :: (['(', ')'] ++ [' ', '\x7d', '\x7d']))) from by decide]
  have hskip : reSub keyPrevMonth (replPrevMonth d)
      ('\x7b' :: '\x7b' :: ' ' ::
        (keyPrevDay ++ (' ' :: (['(', ')'] ++ [' ', '\x7d', '\x7d'])))) =
      .ok ('\x7b' :: '\x7b' :: ' ' ::
        (keyPrevDay ++ (' ' :: (['(', ')'] ++ [' ', '\x7d', '\x7d'])))) :=
    reSub_skip_expr keyPrevMonth (replPrevMonth d)
      (by decide : keyPrevDay = 'e' :: "nergomera_prev_day".data) (by decide)
      (by decide) _ (by decide) (by decide)
  rw [hskip]
  show Except.map _ (reSub keyPrevDay (replPrevDay d)
    ('\x7b' :: '\x7b' :: ' ' ::
      (keyPrevDay ++ (' ' :: (['(', ')'] ++ [' ', '\x7d', '\x7d']))))) = _
  rw [reSub_single_expr keyPrevDay (replPrevDay d)
    (by decide : keyPrevDay = 'e' :: "nergomera_prev_day".data) (by decide)
    ['(', ')'] rfl (by decide)]
  rw [show replPrevDay d ['(', ')'] = .ok (fmtDayMonthYear (subDays d 1)) from rfl]
  rfl

/-! ## Lemmas: expressions embedded in surrounding text -/

/-- The characters of the expression argument `(n)` contain no opening
brace. -/
theorem parenArg_no_open (n : Nat) :
    ∀ c ∈ ('(' :: (natDigits n ++ [')'])), c ≠ '\x7b' := by
  intro c hc
  rcases List.mem_cons.mp hc with rfl | hc2
  · decide
  · rcases List.mem_append.mp hc2 with hc2 | hc2
    · have hb := natDigits_char_class n c hc2
      exact (digit_char_props hb.1 hb.2).2.1
    · rcases List.mem_singleton.mp hc2 with rfl
      decide

/-- Scanning text free of opening braces before the rest of the input: the
scanner copies it through. -/
theorem reSub_append_left (key : List Char)
    (repl : List Char → Except PyErr (List Char)) :
    ∀ (pre : List Char), (∀ c ∈ pre, c ≠ '\x7b') → ∀ (cs : List Char),
      reSub key repl (pre ++ cs) =
        (reSub key repl cs).map (fun t => pre ++ t) := by
  intro pre
  induction pre with
  | nil =>
    intro _ cs
    simp only [List.nil_append]
    cases reSub key repl cs <;> rfl
  | cons c pre' ih =>
    intro hpre cs
    rw [List.cons_append]
    rw [reSub_cons_adv repl
      (Or.inl (fun hcp => hpre c (List.mem_cons_self c pre') hcp.1))]
    rw [ih (fun c' h' => hpre c' (List.mem_cons_of_mem _ h')) cs]
    cases reSub key repl cs <;> rfl

/-- One well-formed expression with a non-empty argument group followed by
arbitrary further text: the match is replaced and scanning continues after
the closing braces. -/
theorem reSub_expr_cont (key : List Char)
    (repl : List Char → Except PyErr (List Char))
    {c0 : Char} {ks : List Char} (hk : key = c0 :: ks) (hc0 : isWs c0 = false)
    (arg : List Char) {a0 : Char} {args : List Char} (hne : arg = a0 :: args)
    (hplain : ∀ c ∈ arg, isWs c = false ∧ c ≠ '\x7d' ∧ c ≠ '\n')
    (tail : List Char) :
    reSub key repl
      ('\x7b' :: '\x7b' :: ' ' ::
        (key ++ (' ' :: (arg ++ (' ' :: '\x7d' :: '\x7d' :: tail))))) =
    (do
      let r ← repl arg
      let t ← reSub key repl tail
      Except.ok (r ++ t)) := by
  have hm : matchKeyAt key
      ((('\x7b' : Char) :: ' ' ::
        (key ++ (' ' :: (arg ++ (' ' :: '\x7d' :: '\x7d' :: tail))))).tail) =
      some (arg, tail) := by
    show matchKeyAt key
      (' ' :: (key ++ (' ' :: (arg ++ (' ' :: '\x7d' :: '\x7d' :: tail))))) = _
    rw [matchKeyAt_self hk hc0]
    have ha0 : isWs a0 = false :=
      (hplain a0 (by rw [hne]; exact List.mem_cons_self _ _)).1
    have hdw : dropWs (' ' :: (arg ++ (' ' :: '\x7d' :: '\x7d' :: tail))) =
        arg ++ (' ' :: '\x7d' :: '\x7d' :: tail) := by
      rw [dropWs_cons_ws (by decide), hne, List.cons_append]
      exact dropWs_cons_not ha0
    rw [hdw, captureArg_plain arg (' ' :: '\x7d' :: '\x7d' :: tail) hplain]
    rw [captureArg_stop
      (by rw [wsThenClose_ws (by decide)]; exact wsThenClose_close tail)]
    simp
  rw [reSub_cons_match repl rfl (by rfl) hm]

/-- Interpolation of a month expression embedded in surrounding text free
of opening braces. -/
theorem interpolateValueL_month_embedded (d : PDate) (n : Nat)
    (pre post : List Char)
    (hpre : ∀ c ∈ pre, c ≠ '\x7b') (hpost : ∀ c ∈ post, c ≠ '\x7b') :
    interpolateValueL d (pre ++ ((prevMonthExpr n).data ++ post)) =
    .ok (pre ++ (fmtMonthYear (subMonths d (n : Int)) ++ post)) := by
  unfold interpolateValueL
  have hsh : (prevMonthExpr n).data ++ post =
      '\x7b' :: '\x7b' :: ' ' :: (keyPrevMonth ++
        (' ' :: (('(' :: (natDigits n ++ [')'])) ++
          (' ' :: '\x7d' :: '\x7d' :: post)))) := by
    rw [prevMonthExpr_data]
    simp [List.cons_append, List.append_assoc]
  rw [reSub_append_left keyPrevMonth (replPrevMonth d) pre hpre
    ((prevMonthExpr n).data ++ post), hsh]
  rw [reSub_expr_cont keyPrevMonth (replPrevMonth d)
    (by decide : keyPrevMonth = 'e' :: "nergomera_prev_month".data) (by decide)
    ('(' :: (natDigits n ++ [')'])) rfl (parenArg_plain n) post]
  rw [show replPrevMonth d ('(' :: (natDigits n ++ [')'])) =
    .ok (fmtMonthYear (subMonths d (n : Int))) from by
      unfold replPrevMonth
      rw [exprParamInt_digits]
      rfl]
  rw [reSub_no_open hpost]
  show reSub keyPrevDay (replPrevDay d)
    (pre ++ (fmtMonthYear (subMonths d (n : Int)) ++ post)) = _
  rw [reSub_no_open (by
    intro c hc
    rcases List.mem_append.mp hc with hc | hc
    · exact hpre c hc
    · rcases List.mem_append.mp hc with hc | hc
      · exact fmtMonthYear_no_open _ c hc
      · exact hpost c hc)]

/-- Interpolation of a day expression embedded in surrounding text free of
opening braces. -/
theorem interpolateValueL_day_embedded (d : PDate) (n : Nat)
    (pre post : List Char)
    (hpre : ∀ c ∈ pre, c ≠ '\x7b') (hpost : ∀ c ∈ post, c ≠ '\x7b') :
    interpolateValueL d (pre ++ ((prevDayExpr n).data ++ post)) =
    .ok (pre ++ (fmtDayMonthYear (subDays d (n : Int)) ++ post)) := by
  unfold interpolateValueL
  have hsh : (prevDayExpr n).data ++ post =
      '\x7b' :: '\x7b' :: ' ' :: (keyPrevDay ++
        (' ' :: (('(' :: (natDigits n ++ [')'])) ++
          (' ' :: '\x7d' :: '\x7d' :: post)))) := by
    rw [prevDayExpr_data]
    simp [List.cons_append, List.append_assoc]
  have hY : ∀ c ∈ (' ' :: (('(' :: (natDigits n ++ [')'])) ++
      (' ' :: '\x7d' :: '\x7d' :: post))), c ≠ '\x7b' := by
    intro c hc
    rcases List.mem_cons.mp hc with rfl | hc
    · decide
    · rcases List.mem_append.mp hc with hc | hc
      · exact parenArg_no_open n c hc
      · rcases List.mem_cons.mp hc with rfl | hc
        · decide
        · rcases List.mem_cons.mp hc with rfl | hc
          · decide
          · rcases List.mem_cons.mp hc with rfl | hc
            · decide
            · exact hpost c hc
  rw [reSub_append_left keyPrevMonth (replPrevMonth d) pre hpre
    ((prevDayExpr n).data ++ post), hsh]
  rw [reSub_skip_expr keyPrevMonth (replPrevMonth d)
    (by decide : keyPrevDay = 'e' :: "nergomera_prev_day".data) (by decide)
    (by decide)
    (' ' :: (('(' :: (natDigits n ++ [')'])) ++ (' ' :: '\x7d' :: '\x7d' :: post)))
    hY (by decide)]
  show reSub keyPrevDay (replPrevDay d)
    (pre ++ ('\x7b' :: '\x7b' :: ' ' :: (keyPrevDay ++
      (' ' :: (('(' :: (natDigits n ++ [')'])) ++
        (' ' :: '\x7d' :: '\x7d' :: post)))))) = _
  rw [reSub_append_left keyPrevDay (replPrevDay d) pre hpre _]
  rw [reSub_expr_cont keyPrevDay (replPrevDay d)
    (by decide : keyPrevDay = 'e' :: "nergomera_prev_day".data) (by decide)
    ('(' :: (natDigits n ++ [')'])) rfl (parenArg_plain n) post]
  rw [show replPrevDay d ('(' :: (natDigits n ++ [')'])) =
    .ok (fmtDayMonthYear (subDays d (n : Int))) from by
      unfold replPrevDay
      rw [exprParamInt_digits]
      rfl]
  rw [reSub_no_open hpost]
  rfl

/-- Interpolation of a string holding one month and one day expression
with surrounding text: each expression is replaced in place. -/
theorem interpolateValueL_both_embedded (d : PDate) (n k : Nat)
    (pre mid post : List Char)
    (hpre : ∀ c ∈ pre, c ≠ '\x7b') (hmid : ∀ c ∈ mid, c ≠ '\x7b')
    (hpost : ∀ c ∈ post, c ≠ '\x7b') :
    interpolateValueL d
      (pre ++ ((prevMonthExpr n).data ++ (mid ++ ((prevDayExpr k).data ++ post)))) =
    .ok (pre ++ (fmtMonthYear (subMonths d (n : Int)) ++
      (mid ++ (fmtDayMonthYear (subDays d (k : Int)) ++ post)))) := by
  unfold interpolateValueL
  have hshM : (prevMonthExpr n).data ++ (mid ++ ((prevDayExpr k).data ++ post)) =
      '\x7b' :: '\x7b' :: ' ' :: (keyPrevMonth ++
        (' ' :: (('(' :: (natDigits n ++ [')'])) ++
          (' ' :: '\x7d' :: '\x7d' :: (mid ++ ((prevDayExpr k).data ++ post)))))) := by
    rw [prevMonthExpr_data]
    simp [List.cons_append, List.append_assoc]
  have hshD : (prevDayExpr k).data ++ post =
      '\x7b' :: '\x7b' :: ' ' :: (keyPrevDay ++
        (' ' :: (('(' :: (natDigits k ++ [')'])) ++
          (' ' :: '\x7d' :: '\x7d' :: post)))) := by
    rw [prevDayExpr_data]
    simp [List.cons_append, List.append_assoc]
  rw [reSub_append_left keyPrevMonth (replPrevMonth d) pre hpre _, hshM]
  rw [reSub_expr_cont keyPrevMonth (replPrevMonth d)
    (by decide : keyPrevMonth = 'e' :: "nergomera_prev_month".data) (by decide)
    ('(' :: (natDigits n ++ [')'])) rfl (parenArg_plain n)
    (mid ++ ((prevDayExpr k).data ++ post))]
  rw [show replPrevMonth d ('(' :: (natDigits n ++ [')'])) =
    .ok (fmtMonthYear (subMonths d (n : Int))) from by
      unfold replPrevMonth
      rw [exprParamInt_digits]
      rfl]
  rw [reSub_append_left keyPrevMonth (replPrevMonth d) mid hmid _, hshD]
  rw [reSub_skip_expr keyPrevMonth (replPrevMonth d)
    (by decide : keyPrevDay = 'e' :: "nergomera_prev_day".data) (by decide)
    (by decide)
    (' ' :: (('(' :: (natDigits k ++ [')'])) ++ (' ' :: '\x7d' :: '\x7d' :: post)))
    (by
      intro c hc
      rcases List.mem_cons.mp hc with rfl | hc
      · decide
      · rcases List.mem_append.mp hc with hc | hc
        · exact parenArg_no_open k c hc
        · rcases List.mem_cons.mp hc with rfl | hc
          · decide
          · rcases List.mem_cons.mp hc with rfl | hc
            · decide
            · rcases List.mem_cons.mp hc with rfl | hc
              · decide
              · exact hpost c hc)
    (by decide)]
  show reSub keyPrevDay (replPrevDay d)
    (pre ++ (fmtMonthYear (subMonths d (n : Int)) ++
      (mid ++ ('\x7b' :: '\x7b' :: ' ' :: (keyPrevDay ++
        (' ' :: (('(' :: (natDigits k ++ [')'])) ++
          (' ' :: '\x7d' :: '\x7d' :: post)))))))) = _
  rw [reSub_append_left keyPrevDay (replPrevDay d) pre hpre _]
  rw [reSub_append_left keyPrevDay (replPrevDay d)
    (fmtMonthYear (subMonths d (n : Int))) (fmtMonthYear_no_open _) _]
  rw [reSub_append_left keyPrevDay (replPrevDay d) mid hmid _]
  rw [reSub_expr_cont keyPrevDay (replPrevDay d)
    (by decide : keyPrevDay = 'e' :: "nergomera_prev_day".data) (by decide)
    ('(' :: (natDigits k ++ [')'])) rfl (parenArg_plain k) post]
  rw [show replPrevDay d ('(' :: (natDigits k ++ [')'])) =
    .ok (fmtDayMonthYear (subDays d (k : Int))) from by
      unfold replPrevDay
      rw [exprParamInt_digits]
      rfl]
  rw [reSub_no_open hpost]
  rfl

/-! ## Claim C4 -/

/-- C4: interpolation replaces each `(double brace) energomera_prev_month (N) (double brace)`
with today's date minus `N` months formatted `MM.YY`, and each
`(double brace) energomera_prev_day (N) (double brace)` with today's date minus `N` days
formatted `DD.MM.YY`, `N` defaulting to 1 when the argument is omitted or
empty (a bare or whitespace-only bracket pair); this also holds for
expressions embedded in surrounding expression-free text, including both
kinds in one string; in particular the month expression yields `04.22` on
2022-05-01 and on 2022-05-10, the day expression yields `30.04.22` on
2022-05-01, and the month expression with argument 5 yields `12.21` on
2022-05-01. -/
theorem c4_date_expression_interpolation :
    ∀ (d : PDate) (n k : Nat) (pre mid post : List Char),
      interpolateValue d (prevMonthExpr n) =
        .ok ⟨fmtMonthYear (subMonths d (n : Int))⟩ ∧
      interpolateValue d (prevDayExpr n) =
        .ok ⟨fmtDayMonthYear (subDays d (n : Int))⟩ ∧
      interpolateValue d "\x7b\x7b energomera_prev_month \x7d\x7d" =
        .ok ⟨fmtMonthYear (subMonths d 1)⟩ ∧
      interpolateValue d "\x7b\x7b energomera_prev_day \x7d\x7d" =
        .ok ⟨fmtDayMonthYear (subDays d 1)⟩ ∧
      interpolateValue ⟨2022, 5, 1⟩ "\x7b\x7b energomera_prev_month \x7d\x7d" =
        .ok "04.22" ∧
      interpolateValue ⟨2022, 5, 10⟩ "\x7b\x7b energomera_prev_month \x7d\x7d" =
        .ok "04.22" ∧
      interpolateValue ⟨2022, 5, 1⟩ "\x7b\x7b energomera_prev_day \x7d\x7d" =
        .ok "30.04.22" ∧
      interpolateValue ⟨2022, 5, 1⟩ (prevMonthExpr 5) = .ok "12.21" ∧
      exprParamInt ('(' :: (List.replicate k ' ' ++ [')'])) 1 = .ok 1 ∧
      interpolateValue d "\x7b\x7b energomera_prev_month () \x7d\x7d" =
        .ok ⟨fmtMonthYear (subMonths d 1)⟩ ∧
      interpolateValue d "\x7b\x7b energomera_prev_day () \x7d\x7d" =
        .ok ⟨fmtDayMonthYear (subDays d 1)⟩ ∧
      ((∀ c ∈ pre, c ≠ '\x7b') → (∀ c ∈ post, c ≠ '\x7b') →
        interpolateValue d ⟨pre ++ ((prevMonthExpr n).data ++ post)⟩ =
          .ok ⟨pre ++ (fmtMonthYear (subMonths d (n : Int)) ++ post)⟩ ∧
        interpolateValue d ⟨pre ++ ((prevDayExpr n).data ++ post)⟩ =
          .ok ⟨pre ++ (fmtDayMonthYear (subDays d (n : Int)) ++ post)⟩) ∧
      ((∀ c ∈ pre, c ≠ '\x7b') → (∀ c ∈ mid, c ≠ '\x7b') →
        (∀ c ∈ post, c ≠ '\x7b') →
        interpolateValue d
            ⟨pre ++ ((prevMonthExpr n).data ++
              (mid ++ ((prevDayExpr k).data ++ post)))⟩ =
          .ok ⟨pre ++ (fmtMonthYear (subMonths d (n : Int)) ++
            (mid ++ (fmtDayMonthYear (subDays d (k : Int)) ++ post)))⟩) := by
  intro d n k pre mid post
  refine ⟨interpolateValue_monthExpr d n, interpolateValue_dayExpr d n,
    interpolateValue_monthDefault d, interpolateValue_dayDefault d,
    by decide, by decide, by decide, by decide,
    exprParamInt_wsParen k 1,
    interpolateValue_monthEmptyArg d, interpolateValue_dayEmptyArg d,
    ?_, ?_⟩
  · intro hpre hpost
    constructor
    · show (interpolateValueL d (pre ++ ((prevMonthExpr n).data ++ post))).map
        (fun cs => (⟨cs⟩ : String)) = _
      rw [interpolateValueL_month_embedded d n pre post hpre hpost]
      rfl
    · show (interpolateValueL d (pre ++ ((prevDayExpr n).data ++ post))).map
        (fun cs => (⟨cs⟩ : String)) = _
      rw [interpolateValueL_day_embedded d n pre post hpre hpost]
      rfl
  · intro hpre hmid hpost
    show (interpolateValueL d (pre ++ ((prevMonthExpr n).data ++
        (mid ++ ((prevDayExpr k).data ++ post))))).map
      (fun cs => (⟨cs⟩ : String)) = _
    rw [interpolateValueL_both_embedded d n k pre mid post hpre hmid hpost]
    rfl

/-- Witness for C4: the month expression with argument 5 and the day
expression with the argument omitted, embedded in surrounding text, on
2022-05-01. -/
theorem c4_date_expression_interpolation_witness :
    (∀ c ∈ ("Meter: ".data : List Char), c ≠ '\x7b') ∧
    (∀ c ∈ (" and ".data : List Char), c ≠ '\x7b') ∧
    (∀ c ∈ (" end".data : List Char), c ≠ '\x7b') ∧
    interpolateValue ⟨2022, 5, 1⟩
        ⟨"Meter: ".data ++ ((prevMonthExpr 5).data ++ " end".data)⟩ =
      .ok "Meter: 12.21 end" ∧
    interpolateValue ⟨2022, 5, 1⟩
        ⟨"Meter: ".data ++ ((prevMonthExpr 5).data ++
          (" and ".data ++ ((prevDayExpr 1).data ++ " end".data)))⟩ =
      .ok "Meter: 12.21 and 30.04.22 end" ∧
    (⟨"Meter: ".data ++ ((prevMonthExpr 5).data ++ " end".data)⟩ : String) =
      "Meter: \x7b\x7b energomera_prev_month (5) \x7d\x7d end" := by
  have h := c4_date_expression_interpolation ⟨2022, 5, 1⟩ 5 1
    "Meter: ".data " and ".data " end".data
  obtain ⟨-, -, -, -, -, -, -, -, -, -, -, h12, h13⟩ := h
  refine ⟨by decide, by decide, by decide, ?_, ?_, by decide⟩
  · exact (h12 (by decide) (by decide)).1.trans (by decide)
  · exact (h13 (by decide) (by decide) (by decide)).trans (by decide)

/-! ## Claim C9 -/

/-- C9: a malformed expression argument (missing an opening or a closing
parenthesis) or a non-integer parenthesized content raises the
configuration-expression error; in particular interpolating
`(double brace) energomera_prev_day ( (double brace)` yields the error, not a substituted
string. -/
theorem c9_malformed_argument_raises :
    ∀ (dflt : Int) (d : PDate) (arg inner : List Char) (a0 : Char) (as : List Char),
      (arg = a0 :: as → (a0 ≠ '(' ∨ arg.getLast? ≠ some ')') →
        exprParamInt arg dflt = .error (.configWrongArgFormat arg)) ∧
      (stripWs inner ≠ [] → pyParseInt (stripWs inner) = none →
        exprParamInt ('(' :: (inner ++ [')'])) dflt =
          .error (.configNonNumericArg (stripWs inner))) ∧
      interpolateValue d "\x7b\x7b energomera_prev_day ( \x7d\x7d" =
        .error (.configWrongArgFormat ['(']) ∧
      (∀ e : PyErr,
        (e = .configWrongArgFormat arg ∨ e = .configNonNumericArg inner) →
        e.isConfigExprError = true) := by
  intro dflt d arg inner a0 as
  refine ⟨?_, ?_, ?_, ?_⟩
  · intro hcons hbad
    subst hcons
    unfold exprParamInt
    rw [if_neg (by simp)]
    rw [if_pos (by rcases hbad with hb | hb <;> simp [hb, List.head?])]
  · intro hne hparse
    have hlast : ('(' :: (inner ++ [')'])).getLast? = some ')' := by
      rw [show ('(' :: (inner ++ [')'])) = ('(' :: inner) ++ [')'] by simp]
      exact List.getLast?_concat _
    unfold exprParamInt
    rw [if_neg (by simp)]
    rw [if_neg (by simp [hlast, List.head?])]
    have hdrop : ('(' :: (inner ++ [')'])).drop 1 = inner ++ [')'] := rfl
    rw [hdrop, List.dropLast_concat]
    rw [if_neg (by simpa [List.isEmpty_iff] using hne)]
    rw [hparse]
  · unfold interpolateValue interpolateValueL
    rw [show ("\x7b\x7b energomera_prev_day ( \x7d\x7d" : String).data =
      '\x7b' :: '\x7b' :: ' ' ::
        (keyPrevDay ++ (' ' :: (['('] ++ [' ', '\x7d', '\x7d']))) from by decide]
    rw [reSub_skip_expr keyPrevMonth (replPrevMonth d)
      (by decide : keyPrevDay = 'e' :: "nergomera_prev_day".data) (by decide)
      (by decide) _ (by decide) (by decide)]
    show Except.map _ (reSub keyPrevDay (replPrevDay d)
      ('\x7b' :: '\x7b' :: ' ' ::
        (keyPrevDay ++ (' ' :: (['('] ++ [' ', '\x7d', '\x7d']))))) = _
    rw [reSub_single_expr keyPrevDay (replPrevDay d)
      (by decide : keyPrevDay = 'e' :: "nergomera_prev_day".data) (by decide)
      ['('] rfl (by decide)]
    rfl
  · intro e he
    rcases he with rfl | rfl <;> rfl

/-! ## Lemmas: the configuration state and `interpolate()` -/

theorem getA_setAssoc_self {β : Type} :
    ∀ (c : List (String × β)) (k : String) (v : β),
    getA (setAssoc c k v) k = some v := by
  intro c
  induction c with
  | nil => intro k v; simp [setAssoc, getA]
  | cons p rest ih =>
    intro k v
    obtain ⟨k', v'⟩ := p
    unfold setAssoc
    by_cases he : k' = k
    · rw [if_pos he]
      simp [getA, he]
    · rw [if_neg he]
      simp only [getA, if_neg he]
      exact ih k v

/-- With distinct keys, a dict assignment to an existing key is a pointwise
update. -/
theorem setAssoc_eq_map {β : Type} :
    ∀ (c : List (String × β)) (k : String) (v : β),
    k ∈ c.map Prod.fst → (c.map Prod.fst).Nodup →
    setAssoc c k v = c.map (fun p => if p.1 = k then (p.1, v) else p) := by
  intro c
  induction c with
  | nil => intro k v hk _; simp at hk
  | cons p rest ih =>
    intro k v hk hnd
    obtain ⟨k', v'⟩ := p
    simp only [List.map_cons, List.nodup_cons] at hnd
    unfold setAssoc
    by_cases he : k' = k
    · rw [if_pos he]
      have hrest : ∀ q ∈ rest, (fun p => if p.1 = k then (p.1, v) else p) q = q := by
        intro q hq
        have : q.1 ≠ k := fun hqk => hnd.1 (by
          rw [he, ← hqk]
          exact List.mem_map_of_mem Prod.fst hq)
        simp [this]
      simp only [List.map_cons, if_pos he]
      rw [List.map_congr_left hrest]
      simp
    · rw [if_neg he]
      have hk' : k ∈ rest.map Prod.fst := by
        rcases List.mem_map.mp hk with ⟨q, hq, hqe⟩
        rcases List.mem_cons.mp hq with rfl | hq
        · exact absurd hqe he
        · exact hqe ▸ List.mem_map_of_mem Prod.fst hq
      simp only [List.map_cons, if_neg he]
      rw [ih k v hk' hnd.2]

theorem lastVal_nil (k : String) : lastVal [] k = none := rfl

theorem lastVal_cons (k0 : String) (v0 : CfgVal) (w : List (String × CfgVal))
    (k : String) :
    lastVal ((k0, v0) :: w) k =
    ((lastVal w k).or (if k0 = k then some v0 else none)) := by
  unfold lastVal
  rw [List.reverse_cons, List.find?_append]
  cases hf : w.reverse.find? (fun q => q.1 = k) with
  | none =>
    simp only [Option.none_or, Option.map_none']
    show (List.find? (fun q => q.1 = k) [(k0, v0)]).map Prod.snd = _
    by_cases hk : k0 = k
    · simp [List.find?, hk]
    · simp [List.find?, hk]
  | some q => simp

/-- A key outside the writes has no last value. -/
theorem lastVal_eq_none {w : List (String × CfgVal)} {k : String}
    (h : k ∉ w.map Prod.fst) : lastVal w k = none := by
  unfold lastVal
  rw [List.find?_eq_none.mpr]
  · rfl
  · intro q hq
    simp only [decide_eq_true_eq]
    intro hqe
    exact h (hqe ▸ List.mem_map_of_mem Prod.fst (List.mem_reverse.mp hq))

/-- Characterization of a write sequence over a dict with distinct keys, all
of the written keys present: a pointwise update by the last write. -/
theorem applyWrites_eq :
    ∀ (w : List (String × CfgVal)) (c : PDict),
    (∀ k ∈ w.map Prod.fst, k ∈ c.map Prod.fst) → (c.map Prod.fst).Nodup →
    applyWrites c w = c.map (fun p => (p.1, (lastVal w p.1).getD p.2)) := by
  intro w
  induction w with
  | nil =>
    intro c _ _
    show c = _
    have hfun : (fun (p : String × CfgVal) => (p.1, (lastVal [] p.1).getD p.2)) =
        fun p => p := funext fun p => by simp [lastVal_nil]
    rw [hfun]
    simp
  | cons q w' ih =>
    obtain ⟨k0, v0⟩ := q
    intro c hsub hnd
    show applyWrites (setAssoc c k0 v0) w' = _
    rw [setAssoc_eq_map c k0 v0 (hsub k0 (by simp)) hnd]
    have hkeys : (c.map (fun p => if p.1 = k0 then (p.1, v0) else p)).map Prod.fst =
        c.map Prod.fst := by
      rw [List.map_map]
      apply List.map_congr_left
      intro p _
      by_cases hp : p.1 = k0 <;> simp [Function.comp, hp]
    rw [ih (c.map (fun p => if p.1 = k0 then (p.1, v0) else p))
      (fun k hk => by
        rw [hkeys]
        exact hsub k (by
          simp only [List.map_cons]
          exact List.mem_cons_of_mem _ hk))
      (by rw [hkeys]; exact hnd)]
    rw [List.map_map]
    apply List.map_congr_left
    intro p _
    show (fun p => (p.1, (lastVal w' p.1).getD p.2))
        (if p.1 = k0 then (p.1, v0) else p) =
      (p.1, (lastVal ((k0, v0) :: w') p.1).getD p.2)
    rw [lastVal_cons]
    by_cases hp : p.1 = k0
    · rw [if_pos hp, if_pos hp.symm]
      cases hlv : lastVal w' p.1 with
      | none => simp [hlv]
      | some x => simp [hlv]
    · rw [if_neg hp, if_neg (fun he => hp he.symm)]
      rw [Option.or_none]

/-- The per-parameter loop of `interpolate()` is the application of the
parameter's write sequence. -/
theorem fieldWrites_cons_str (today : PDate) (k s : String)
    (items : List (String × CfgVal)) :
    fieldWrites today ((k, CfgVal.str s) :: items) = (do
      let s' ← interpolateValue today s
      let w ← fieldWrites today items
      Except.ok ((k, CfgVal.str s') :: w)) := rfl

theorem interpParamFields_eq : ∀ (items : List (String × CfgVal)) (today : PDate)
    (cfg : PDict),
    interpParamFields today items cfg = (fieldWrites today items).map (applyWrites cfg) := by
  intro items
  induction items with
  | nil => intro today cfg; rfl
  | cons q items' ih =>
    obtain ⟨k, v⟩ := q
    intro today cfg
    cases v with
    | str s =>
      rw [fieldWrites_cons_str]
      show (do
        let s' ← interpolateValue today s
        interpParamFields today items' (setAssoc cfg k (.str s'))) = _
      cases hi : interpolateValue today s with
      | error e => rfl
      | ok s' =>
        show interpParamFields today items' (setAssoc cfg k (.str s')) = _
        rw [ih]
        cases hw : fieldWrites today items' with
        | error e => rfl
        | ok w => rfl
    | other t =>
      show interpParamFields today items' cfg = _
      exact ih today cfg

/-- The write sequence, when it succeeds, writes exactly the string-valued
keys of the parameter, in order, whatever the date. -/
theorem fieldWrites_keys : ∀ (items : List (String × CfgVal)) (today : PDate)
    (w : List (String × CfgVal)),
    fieldWrites today items = .ok w → w.map Prod.fst = strKeys items := by
  intro items
  induction items with
  | nil =>
    intro today w h
    injection h with h
    rw [← h]
    rfl
  | cons q items' ih =>
    obtain ⟨k, v⟩ := q
    intro today w h
    cases v with
    | str s =>
      revert h
      show (do
        let s' ← interpolateValue today s
        let w' ← fieldWrites today items'
        Except.ok ((k, CfgVal.str s') :: w')) = .ok w → _
      cases hi : interpolateValue today s with
      | error e =>
        intro h
        exact Except.noConfusion (h : Except.error e = Except.ok w)
      | ok s' =>
        cases hw : fieldWrites today items' with
        | error e =>
          intro h
          exact Except.noConfusion (h : Except.error e = Except.ok w)
        | ok w' =>
          intro h
          have hww : w = (k, CfgVal.str s') :: w' := by
            have : Except.ok (ε := PyErr) ((k, CfgVal.str s') :: w') = .ok w := h
            injection this with h2
            exact h2.symm
          subst hww
          simp only [List.map_cons]
          rw [ih today w' hw]
          rfl
    | other t =>
      exact ih today w h

theorem strKeys_sub (items : List (String × CfgVal)) :
    ∀ k ∈ strKeys items, k ∈ items.map Prod.fst := by
  intro k hk
  rcases List.mem_map.mp hk with ⟨q, hq, hqe⟩
  exact hqe ▸ List.mem_map_of_mem Prod.fst (List.mem_of_mem_filter hq)

/-- Interpolating a parameter a second time (possibly on another day) from
the same original items yields the same dict as a single pass on the second
day. -/
theorem interpParam_twice (d1 d2 : PDate) (o c1 c2 : PDict)
    (hnd : (o.map Prod.fst).Nodup)
    (h1 : interpParamFields d1 o o = .ok c1)
    (h2 : interpParamFields d2 o o = .ok c2) :
    interpParamFields d2 o c1 = .ok c2 := by
  rw [interpParamFields_eq] at h1 h2 ⊢
  cases hw1 : fieldWrites d1 o with
  | error e =>
    rw [hw1] at h1
    exact Except.noConfusion (h1 : Except.error e = Except.ok c1)
  | ok w1 =>
    cases hw2 : fieldWrites d2 o with
    | error e =>
      rw [hw2] at h2
      exact Except.noConfusion (h2 : Except.error e = Except.ok c2)
    | ok w2 =>
      rw [hw1] at h1
      rw [hw2] at h2
      have hc1 : applyWrites o w1 = c1 := by
        injection h1
      have hc2 : applyWrites o w2 = c2 := by
        injection h2
      have hk1 : w1.map Prod.fst = strKeys o := fieldWrites_keys o d1 w1 hw1
      have hk2 : w2.map Prod.fst = strKeys o := fieldWrites_keys o d2 w2 hw2
      have hsub1 : ∀ k ∈ w1.map Prod.fst, k ∈ o.map Prod.fst := by
        rw [hk1]; exact strKeys_sub o
      have hsub2 : ∀ k ∈ w2.map Prod.fst, k ∈ o.map Prod.fst := by
        rw [hk2]; exact strKeys_sub o
      show Except.ok (applyWrites c1 w2) = Except.ok c2
      rw [← hc1, ← hc2]
      rw [applyWrites_eq w1 o hsub1 hnd]
      have hkeys : ((o.map fun p => (p.1, (lastVal w1 p.1).getD p.2)).map Prod.fst) =
          o.map Prod.fst := by
        rw [List.map_map]; rfl
      rw [applyWrites_eq w2 _ (fun k hk => by rw [hkeys]; exact hsub2 k hk)
        (by rw [hkeys]; exact hnd)]
      rw [applyWrites_eq w2 o hsub2 hnd, List.map_map]
      apply congrArg Except.ok
      apply List.map_congr_left
      intro p _
      show ((fun p => (p.1, (lastVal w2 p.1).getD p.2))
        ((p.1, (lastVal w1 p.1).getD p.2))) = _
      cases hlv : lastVal w2 p.1 with
      | some x => simp [hlv]
      | none =>
        have hn1 : lastVal w1 p.1 = none := by
          apply lastVal_eq_none
          rw [hk1, ← hk2]
          intro hmem
          have := lastVal_eq_none (w := w2) (k := p.1)
          rcases hin : lastVal w2 p.1 with _ | x
          · unfold lastVal at hin
            rcases List.find?_eq_none.mp ((Option.map_eq_none'.mp) hin) with hall
            exact absurd hmem (by
              intro hmem2
              rcases List.mem_map.mp hmem2 with ⟨q, hq, hqe⟩
              exact hall q (List.mem_reverse.mpr hq) (by simpa using hqe))
          · rw [hin] at hlv; cases hlv
        simp [hlv, hn1]

/-- Lifting `interpParam_twice` to the parameter list. -/
theorem goParams_twice (d1 d2 : PDate) : ∀ (os ps1 ps2 : List PDict),
    (∀ p ∈ os, (p.map Prod.fst).Nodup) →
    goParams d1 os os = .ok ps1 → goParams d2 os os = .ok ps2 →
    goParams d2 os ps1 = .ok ps2 := by
  intro os
  induction os with
  | nil =>
    intro ps1 ps2 _ h1 h2
    injection h1 with h1
    injection h2 with h2
    subst h1
    subst h2
    rfl
  | cons o os' ih =>
    intro ps1 ps2 hnd h1 h2
    have hstep : ∀ (d : PDate) (ps : List PDict),
        goParams d (o :: os') (o :: os') = .ok ps →
        ∃ c rest, interpParamFields d o o = .ok c ∧
          goParams d os' os' = .ok rest ∧ ps = c :: rest := by
      intro d ps h
      revert h
      show (do
        let c' ← interpParamFields d o o
        let cs' ← goParams d os' os'
        Except.ok (c' :: cs')) = .ok ps → _
      cases hc : interpParamFields d o o with
      | error e =>
        intro h
        exact Except.noConfusion (h : Except.error e = Except.ok ps)
      | ok c =>
        cases hr : goParams d os' os' with
        | error e =>
          intro h
          exact Except.noConfusion (h : Except.error e = Except.ok ps)
        | ok rest =>
          intro h
          have : Except.ok (ε := PyErr) (c :: rest) = .ok ps := h
          injection this with hh
          exact ⟨c, rest, rfl, rfl, hh.symm⟩
    rcases hstep d1 ps1 h1 with ⟨c1, rest1, hc1, hr1, rfl⟩
    rcases hstep d2 ps2 h2 with ⟨c2, rest2, hc2, hr2, rfl⟩
    show (do
      let c' ← interpParamFields d2 o c1
      let cs' ← goParams d2 os' rest1
      Except.ok (c' :: cs')) = .ok (c2 :: rest2)
    rw [interpParam_twice d1 d2 o c1 c2 (hnd o (List.mem_cons_self o os')) hc1 hc2]
    rw [ih rest1 rest2 (fun p hp => hnd p (List.mem_cons_of_mem o hp)) hr1 hr2]
    rfl

/-- A later interpolation sees only the original configuration: a second
`interpolate()` on state produced by a first one yields exactly what a
single `interpolate()` on the fresh state yields. -/
theorem interpolateConfig_twice (d1 d2 : PDate) (P : List PDict)
    (st1 st2 : ConfigState)
    (hnd : ∀ p ∈ P, (p.map Prod.fst).Nodup)
    (h1 : interpolateConfig d1 (mkConfigState P) = .ok st1)
    (h2 : interpolateConfig d2 (mkConfigState P) = .ok st2) :
    interpolateConfig d2 st1 = .ok st2 := by
  unfold interpolateConfig at h1 h2 ⊢
  unfold mkConfigState at h1 h2
  cases hg1 : goParams d1 P P with
  | error e =>
    rw [hg1] at h1
    exact Except.noConfusion (h1 : Except.error e = Except.ok st1)
  | ok ps1 =>
    cases hg2 : goParams d2 P P with
    | error e =>
      rw [hg2] at h2
      exact Except.noConfusion (h2 : Except.error e = Except.ok st2)
    | ok ps2 =>
      rw [hg1] at h1
      rw [hg2] at h2
      have hst1 : st1 = ⟨ps1, P⟩ := by
        have : Except.ok (ε := PyErr) (ConfigState.mk ps1 P) = .ok st1 := h1
        injection this with hh
        exact hh.symm
      have hst2 : st2 = ⟨ps2, P⟩ := by
        have : Except.ok (ε := PyErr) (ConfigState.mk ps2 P) = .ok st2 := h2
        injection this with hh
        exact hh.symm
      subst hst1
      subst hst2
      show Except.map _ (goParams d2 P ps1) = _
      rw [goParams_twice d1 d2 P ps1 ps2 hnd hg1 hg2]
      rfl

/-- Any number of same-day `interpolate()` calls is the same as one. -/
theorem repeatInterp_eq (d : PDate) (P : List PDict) (st1 : ConfigState)
    (hnd : ∀ p ∈ P, (p.map Prod.fst).Nodup)
    (h1 : interpolateConfig d (mkConfigState P) = .ok st1) :
    ∀ n, repeatInterp d (n + 1) (mkConfigState P) = .ok st1 := by
  have hid : interpolateConfig d st1 = .ok st1 :=
    interpolateConfig_twice d d P st1 st1 hnd h1 h1
  have hrep : ∀ m, repeatInterp d m st1 = .ok st1 := by
    intro m
    induction m with
    | zero => rfl
    | succ m ihm =>
      show (do
        let st' ← interpolateConfig d st1
        repeatInterp d m st') = _
      rw [hid]
      exact ihm
  intro n
  show (do
    let st' ← interpolateConfig d (mkConfigState P)
    repeatInterp d n st') = _
  rw [h1]
  exact hrep n

/-! ## Claim C5 -/

/-- C5: `interpolate()` always evaluates against the original descriptor
text captured at construction time: any number of same-day calls leaves the
exposed parameters equal to a single call, and a call on a later day
re-resolves from the current date — applying it to an already-interpolated
state gives exactly what a single call on the fresh state gives. -/
theorem c5_interpolate_from_original (P : List PDict) (d1 d2 : PDate)
    (st1 st2 : ConfigState)
    (hnd : ∀ p ∈ P, (p.map Prod.fst).Nodup)
    (h1 : interpolateConfig d1 (mkConfigState P) = .ok st1)
    (h2 : interpolateConfig d2 (mkConfigState P) = .ok st2) :
    (∀ n, repeatInterp d1 (n + 1) (mkConfigState P) = .ok st1) ∧
    interpolateConfig d2 st1 = .ok st2 :=
  ⟨repeatInterp_eq d1 P st1 hnd h1,
   interpolateConfig_twice d1 d2 P st1 st2 hnd h1 h2⟩

/-- Witness for C5: three same-day calls equal one call, and a later-day
call on the interpolated state re-resolves the date expression. -/
theorem c5_interpolate_from_original_witness :
    repeatInterp ⟨2022, 5, 1⟩ 3 (mkConfigState
      [[("address", CfgVal.str "ENMPE"),
        ("additional_data", CfgVal.str "\x7b\x7b energomera_prev_month \x7d\x7d"),
        ("response_idx", CfgVal.other 0)]]) =
      .ok ⟨[[("address", CfgVal.str "ENMPE"),
             ("additional_data", CfgVal.str "04.22"),
             ("response_idx", CfgVal.other 0)]],
           [[("address", CfgVal.str "ENMPE"),
             ("additional_data", CfgVal.str "\x7b\x7b energomera_prev_month \x7d\x7d"),
             ("response_idx", CfgVal.other 0)]]⟩ ∧
    interpolateConfig ⟨2022, 6, 15⟩
      ⟨[[("address", CfgVal.str "ENMPE"),
         ("additional_data", CfgVal.str "04.22"),
         ("response_idx", CfgVal.other 0)]],
       [[("address", CfgVal.str "ENMPE"),
         ("additional_data", CfgVal.str "\x7b\x7b energomera_prev_month \x7d\x7d"),
         ("response_idx", CfgVal.other 0)]]⟩ =
      .ok ⟨[[("address", CfgVal.str "ENMPE"),
             ("additional_data", CfgVal.str "05.22"),
             ("response_idx", CfgVal.other 0)]],
           [[("address", CfgVal.str "ENMPE"),
             ("additional_data", CfgVal.str "\x7b\x7b energomera_prev_month \x7d\x7d"),
             ("response_idx", CfgVal.other 0)]]⟩ := by
  have h := c5_interpolate_from_original
    [[("address", CfgVal.str "ENMPE"),
      ("additional_data", CfgVal.str "\x7b\x7b energomera_prev_month \x7d\x7d"),
      ("response_idx", CfgVal.other 0)]]
    ⟨2022, 5, 1⟩ ⟨2022, 6, 15⟩
    ⟨[[("address", CfgVal.str "ENMPE"),
       ("additional_data", CfgVal.str "04.22"),
       ("response_idx", CfgVal.other 0)]],
     [[("address", CfgVal.str "ENMPE"),
       ("additional_data", CfgVal.str "\x7b\x7b energomera_prev_month \x7d\x7d"),
       ("response_idx", CfgVal.other 0)]]⟩
    ⟨[[("address", CfgVal.str "ENMPE"),
       ("additional_data", CfgVal.str "05.22"),
       ("response_idx", CfgVal.other 0)]],
     [[("address", CfgVal.str "ENMPE"),
       ("additional_data", CfgVal.str "\x7b\x7b energomera_prev_month \x7d\x7d"),
       ("response_idx", CfgVal.other 0)]]⟩
    (by decide) (by decide) (by decide)
  exact ⟨h.1 2, h.2⟩

/-- Witness for C9: a missing opening parenthesis, a non-integer content
and the concrete malformed expression all raise the expression error. -/
theorem c9_malformed_argument_raises_witness :
    exprParamInt ['5', ')'] 1 = .error (.configWrongArgFormat ['5', ')']) ∧
    exprParamInt ('(' :: ("x".data ++ [')'])) 1 =
      .error (.configNonNumericArg "x".data) ∧
    interpolateValue ⟨2022, 5, 1⟩ "\x7b\x7b energomera_prev_day ( \x7d\x7d" =
      .error (.configWrongArgFormat ['(']) := by
  have h := c9_malformed_argument_raises 1 ⟨2022, 5, 1⟩ ['5', ')'] "x".data '5' [')']
  exact ⟨h.1 rfl (Or.inl (by decide)), h.2.1 (by decide) (by decide), h.2.2.1⟩

/-! ## Claim C1 -/

/-- If the stored hash for the unique id already equals the payload hash,
any number of further publication steps with that payload publish
nothing and leave the tracker unchanged. -/
theorem stepRepeat_stable (uid json topic : String) :
    ∀ (n : Nat) (tr : Tracker), getA tr uid = some (pyHash json) →
    stepRepeat uid json topic n tr = ([], tr) := by
  intro n
  induction n with
  | zero => intro tr _; rfl
  | succ m ih =>
    intro tr h
    show (let p := hassConfigPublishStep tr uid json topic
      let q := stepRepeat uid json topic m p.2
      (p.1 ++ q.1, q.2)) = _
    unfold hassConfigPublishStep
    rw [if_neg (by simp [h])]
    simp only []
    rw [ih tr h]
    rfl

/-- C1: the discovery payload is published exactly when the unique id is
unseen or the stored hash differs from the payload's hash; the hash is
recorded right after; across repeated publication steps with the same
unique id and payload, publication happens at most once (exactly once when
the initial state calls for it), and a step with the same payload right
after a step never publishes again. -/
theorem c1_config_payload_published_once :
    ∀ (tr : Tracker) (uid json topic : String) (n : Nat),
      ((hassConfigPublishStep tr uid json topic).1 =
          [MqttEvent.publish topic json true] ↔
        (getA tr uid = none ∨
          ∃ h, getA tr uid = some h ∧ h ≠ pyHash json)) ∧
      getA (hassConfigPublishStep tr uid json topic).2 uid = some (pyHash json) ∧
      (stepRepeat uid json topic (n + 1) tr).1.length =
        (if getA tr uid ≠ some (pyHash json) then 1 else 0) ∧
      (hassConfigPublishStep (hassConfigPublishStep tr uid json topic).2
          uid json topic).1 = [] := by
  intro tr uid json topic n
  have hrec : getA (hassConfigPublishStep tr uid json topic).2 uid =
      some (pyHash json) := by
    unfold hassConfigPublishStep
    by_cases h : getA tr uid ≠ some (pyHash json)
    · rw [if_pos h]
      exact getA_setAssoc_self tr uid (pyHash json)
    · rw [if_neg h]
      exact not_not.mp h
  refine ⟨?_, hrec, ?_, ?_⟩
  · unfold hassConfigPublishStep
    by_cases h : getA tr uid ≠ some (pyHash json)
    · rw [if_pos h]
      refine ⟨fun _ => ?_, fun _ => rfl⟩
      cases hg : getA tr uid with
      | none => exact Or.inl rfl
      | some x =>
        refine Or.inr ⟨x, rfl, fun hx => h ?_⟩
        rw [hg, hx]
    · rw [if_neg h]
      have hg : getA tr uid = some (pyHash json) := not_not.mp h
      constructor
      · intro hempty
        exact absurd hempty (by simp)
      · rintro (hnone | ⟨x, hx, hne⟩)
        · rw [hg] at hnone
          exact Option.noConfusion hnone
        · rw [hg] at hx
          injection hx with hx
          exact absurd hx.symm hne
  · have hz : (stepRepeat uid json topic (n + 1) tr).1 =
        (hassConfigPublishStep tr uid json topic).1 ++
        (stepRepeat uid json topic n
          (hassConfigPublishStep tr uid json topic).2).1 := rfl
    rw [hz, stepRepeat_stable uid json topic n _ hrec, List.append_nil]
    unfold hassConfigPublishStep
    by_cases h : getA tr uid ≠ some (pyHash json)
    · rw [if_pos h]
      simp [h]
    · rw [if_neg h]
      simp [h]
  · rcases hstep : hassConfigPublishStep tr uid json topic with ⟨evs, tr2⟩
    have h2 : getA tr2 uid = some (pyHash json) := by
      rw [hstep] at hrec
      exact hrec
    unfold hassConfigPublishStep
    rw [if_neg (by simp [h2])]

/-! ## Claim C2 -/

/-- C2: entity identities derive from the meter identity and the parameter:
`device_id = model_serial`, `unique_id = device_id_(entity_name or
address)`, with the positional suffix appended when the narrowed reading
has more than one entry; display names pick list entries positionally
(falling back to `address idx`) or suffix the scalar name; the concrete
3-value CURRE reading with scalar name `Current` yields ids ending
`_0`, `_1`, `_2` named `Current 0`, `Current 1`, `Current 2`. -/
theorem c2_entity_identity_derivation :
    ∀ (category model serialNumber discPfx : String) (p : IecParam)
      (n idx : Nat) (pr : HassProps),
      (hassGenSensorProps category model serialNumber discPfx p n idx = .ok pr →
        pr.deviceId = model ++ "_" ++ serialNumber ∧
        pr.uniqueId = (if 1 < n then
            model ++ "_" ++ serialNumber ++ "_" ++ (p.entity_name.getD p.address)
              ++ "_" ++ natStr idx
          else
            model ++ "_" ++ serialNumber ++ "_" ++ (p.entity_name.getD p.address)) ∧
        (∀ nm, p.name = .s nm →
          pr.itemName = (if 1 < n then nm ++ " " ++ natStr idx else nm)) ∧
        (∀ ns, p.name = .l ns → 1 < n →
          pr.itemName = ((ns.get? idx).getD (p.address ++ " " ++ natStr idx)))) ∧
      (∀ i : Nat, i < 3 →
        hassGenSensorProps "sensor" "CE301" "00123456" "homeassistant"
          ⟨"CURRE", .s "Current", some "current", some "measurement", some "A",
            none, none, none⟩ 3 i =
        .ok ⟨"CE301_00123456", "CE301_00123456_CURRE_" ++ natStr i,
          "Current " ++ natStr i,
          "homeassistant/sensor/CE301_00123456/CE301_00123456_CURRE_"
            ++ natStr i ++ "/config",
          "homeassistant/sensor/CE301_00123456/CE301_00123456_CURRE_"
            ++ natStr i ++ "/state"⟩) := by
  intro category model serialNumber discPfx p n idx pr
  constructor
  · intro h
    cases hname : p.name with
    | s nm =>
      unfold hassGenSensorProps at h
      rw [hname] at h
      simp only [] at h
      have hpr : pr = ⟨model ++ "_" ++ serialNumber,
          if 1 < n then
            model ++ "_" ++ serialNumber ++ "_" ++ (p.entity_name.getD p.address)
              ++ "_" ++ natStr idx
          else model ++ "_" ++ serialNumber ++ "_" ++ (p.entity_name.getD p.address),
          if 1 < n then nm ++ " " ++ natStr idx else nm,
          topicBase discPfx category (model ++ "_" ++ serialNumber)
            (if 1 < n then
              model ++ "_" ++ serialNumber ++ "_" ++ (p.entity_name.getD p.address)
                ++ "_" ++ natStr idx
            else
              model ++ "_" ++ serialNumber ++ "_"
                ++ (p.entity_name.getD p.address)) ++ "/config",
          topicBase discPfx category (model ++ "_" ++ serialNumber)
            (if 1 < n then
              model ++ "_" ++ serialNumber ++ "_" ++ (p.entity_name.getD p.address)
                ++ "_" ++ natStr idx
            else
              model ++ "_" ++ serialNumber ++ "_"
                ++ (p.entity_name.getD p.address)) ++ "/state"⟩ := by
        by_cases hn : 1 < n
        · simp only [if_pos hn] at h ⊢
          injection h with h
          exact h.symm
        · simp only [if_neg hn] at h ⊢
          injection h with h
          exact h.symm
      subst hpr
      refine ⟨rfl, rfl, ?_, ?_⟩
      · intro nm' hnm'
        injection hnm' with he
        rw [he]
      · intro ns hns
        exact PName.noConfusion hns
    | l ns =>
      cases hns : ns with
      | nil =>
        unfold hassGenSensorProps at h
        rw [hname, hns] at h
        exact Except.noConfusion
          (h : Except.error PyErr.indexError = Except.ok pr)
      | cons nm0 ntail =>
        unfold hassGenSensorProps at h
        rw [hname, hns] at h
        simp only [List.head?] at h
        have hpr : pr = ⟨model ++ "_" ++ serialNumber,
            if 1 < n then
              model ++ "_" ++ serialNumber ++ "_" ++ (p.entity_name.getD p.address)
                ++ "_" ++ natStr idx
            else model ++ "_" ++ serialNumber ++ "_" ++ (p.entity_name.getD p.address),
            if 1 < n then ((nm0 :: ntail).get? idx).getD
              (p.address ++ " " ++ natStr idx) else nm0,
            topicBase discPfx category (model ++ "_" ++ serialNumber)
              (if 1 < n then
                model ++ "_" ++ serialNumber ++ "_" ++ (p.entity_name.getD p.address)
                  ++ "_" ++ natStr idx
              else
                model ++ "_" ++ serialNumber ++ "_"
                  ++ (p.entity_name.getD p.address)) ++ "/config",
            topicBase discPfx category (model ++ "_" ++ serialNumber)
              (if 1 < n then
                model ++ "_" ++ serialNumber ++ "_" ++ (p.entity_name.getD p.address)
                  ++ "_" ++ natStr idx
              else
                model ++ "_" ++ serialNumber ++ "_"
                  ++ (p.entity_name.getD p.address)) ++ "/state"⟩ := by
          by_cases hn : 1 < n
          · simp only [if_pos hn] at h ⊢
            injection h with h
            exact h.symm
          · simp only [if_neg hn] at h ⊢
            injection h with h
            exact h.symm
        subst hpr
        refine ⟨rfl, rfl, ?_, ?_⟩
        · intro nm' hnm'
          exact PName.noConfusion hnm'
        · intro ns' hns' hn
          injection hns' with he
          rw [← he]
          show (if 1 < n then
            ((nm0 :: ntail).get? idx).getD (p.address ++ " " ++ natStr idx)
            else nm0) = _
          rw [if_pos hn]
  · intro i hi
    interval_cases i <;> decide

/-- Witness for C2: the second entity of the 3-value CURRE reading. -/
theorem c2_entity_identity_derivation_witness :
    hassGenSensorProps "sensor" "CE301" "00123456" "homeassistant"
      ⟨"CURRE", .s "Current", some "current", some "measurement", some "A",
        none, none, none⟩ 3 1 =
      .ok ⟨"CE301_00123456", "CE301_00123456_CURRE_1", "Current 1",
        "homeassistant/sensor/CE301_00123456/CE301_00123456_CURRE_1/config",
        "homeassistant/sensor/CE301_00123456/CE301_00123456_CURRE_1/state"⟩ ∧
    "CE301_00123456" = "CE301" ++ "_" ++ "00123456" := by
  have h := (c2_entity_identity_derivation "sensor" "CE301" "00123456"
    "homeassistant"
    ⟨"CURRE", .s "Current", some "current", some "measurement", some "A",
      none, none, none⟩ 3 1
    ⟨"CE301_00123456", "CE301_00123456_CURRE_1", "Current 1",
      "homeassistant/sensor/CE301_00123456/CE301_00123456_CURRE_1/config",
      "homeassistant/sensor/CE301_00123456/CE301_00123456_CURRE_1/state"⟩).1
    (by decide)
  exact ⟨by decide, h.1⟩

/-! ## Lemmas: topics of plain sensors never collide with the online
pseudo-sensor's state topic -/

/-- The topic trees of the `sensor` and `binary_sensor` categories are
disjoint, whatever the discovery prefix, device, unique id and suffix. -/
theorem sensorTopic_ne_binaryTopic (d x y x' y' a b : String) :
    topicBase d "sensor" x y ++ a ≠ topicBase d "binary_sensor" x' y' ++ b := by
  intro h
  have hd := congrArg String.data h
  unfold topicBase at hd
  by_cases hempty : d ≠ ""
  · rw [if_pos hempty, if_pos hempty] at hd
    simp only [joinSlash, String.data_append, List.append_assoc,
      List.cons_append, List.nil_append] at hd
    have hd2 := List.append_cancel_left hd
    injection hd2 with _ hd3
    injection hd3 with h1 _
    exact absurd h1 (by decide)
  · rw [if_neg hempty, if_neg hempty] at hd
    simp only [joinSlash, String.data_append, List.append_assoc,
      List.cons_append, List.nil_append] at hd
    injection hd with h1 _
    exact absurd h1 (by decide)

/-- Successful property generation produces the config and state topics
under the same topic base, in the requested category. -/
theorem hassGenSensorProps_topics (category model serialNumber discPfx : String)
    (p : IecParam) (n idx : Nat) (pr : HassProps)
    (h : hassGenSensorProps category model serialNumber discPfx p n idx = .ok pr) :
    ∃ u, pr.configTopic =
        topicBase discPfx category (model ++ "_" ++ serialNumber) u ++ "/config" ∧
      pr.stateTopic =
        topicBase discPfx category (model ++ "_" ++ serialNumber) u ++ "/state" := by
  cases hname : p.name with
  | s nm =>
    unfold hassGenSensorProps at h
    rw [hname] at h
    refine ⟨if 1 < n then
        model ++ "_" ++ serialNumber ++ "_" ++ (p.entity_name.getD p.address)
          ++ "_" ++ natStr idx
      else model ++ "_" ++ serialNumber ++ "_" ++ (p.entity_name.getD p.address),
      ?_, ?_⟩ <;>
    · by_cases hn : 1 < n
      · simp only [if_pos hn] at h ⊢
        injection h with h
        rw [← h]
      · simp only [if_neg hn] at h ⊢
        injection h with h
        rw [← h]
  | l ns =>
    cases hns : ns with
    | nil =>
      unfold hassGenSensorProps at h
      rw [hname, hns] at h
      exact Except.noConfusion (h : Except.error PyErr.indexError = Except.ok pr)
    | cons nm0 ntail =>
      unfold hassGenSensorProps at h
      rw [hname, hns] at h
      simp only [List.head?] at h
      refine ⟨if 1 < n then
          model ++ "_" ++ serialNumber ++ "_" ++ (p.entity_name.getD p.address)
            ++ "_" ++ natStr idx
        else model ++ "_" ++ serialNumber ++ "_" ++ (p.entity_name.getD p.address),
        ?_, ?_⟩ <;>
      · by_cases hn : 1 < n
        · simp only [if_pos hn] at h ⊢
          injection h with h
          rw [← h]
        · simp only [if_neg hn] at h ⊢
          injection h with h
          rw [← h]

/-- The publication step emits only retained publishes. -/
theorem hassConfigPublishStep_events (tr : Tracker) (uid json topic : String) :
    ∀ e ∈ (hassConfigPublishStep tr uid json topic).1,
      e = MqttEvent.publish topic json true := by
  intro e he
  unfold hassConfigPublishStep at he
  by_cases h : getA tr uid ≠ some (pyHash json)
  · rw [if_pos h] at he
    simpa using he
  · rw [if_neg h] at he
    simp at he

/-- The retained discovery publish and the will-set calls never match the
offline state-publish predicate; the non-retained state publish of a plain
(`sensor`-category) entity never matches it either, because its topic lives
in the `sensor` tree. -/
theorem isOfflinePublish_willSet (d m sn t p : String) :
    isOfflinePublish d m sn (.willSet t p) = false := rfl

theorem isOfflinePublish_retained (d m sn t p : String) :
    isOfflinePublish d m sn (.publish t p true) = false := by
  unfold isOfflinePublish
  simp

theorem isOfflinePublish_sensorTopic (d m sn x u p : String) (r : Bool) :
    isOfflinePublish d m sn
      (.publish (topicBase d "sensor" x u ++ "/state") p r) = false := by
  unfold isOfflinePublish onlineStateTopic
  have hne := sensorTopic_ne_binaryTopic d x u (m ++ "_" ++ sn)
    (m ++ "_" ++ sn ++ "_" ++ "IS_ONLINE") "/state" "/state"
  simp [hne]

/-- Reduction of the `Except` bind on a success value. -/
theorem exceptBind_ok {α β : Type} (a : α) (f : α → Except PyErr β) :
    (Except.ok a >>= f) = f a := rfl

/-- No single-entity step of a plain (`sensor`-category) parameter can emit
the offline state publish of the online pseudo-sensor. -/
theorem processEntity_events_sensor (m sn : String) (ctx : SensorCtx)
    (hc : ctx.binary = false) (p : IecParam) (lw : Option PyVal) (so : Bool)
    (iecLen idx : Nat) (v : PyVal) (st : BusState) (evs : List MqttEvent)
    (st' : BusState)
    (h : processEntity ctx p lw so iecLen idx v st = .ok (evs, st')) :
    ∀ e ∈ evs, isOfflinePublish ctx.discPfx m sn e = false := by
  have hcat : ctx.category = "sensor" := by
    unfold SensorCtx.category
    rw [hc]
    rfl
  unfold processEntity at h
  cases hg : hassGenSensorProps ctx.category ctx.model ctx.serialNumber
      ctx.discPfx p iecLen idx with
  | error e0 =>
    rw [hg] at h
    exact absurd h (fun hh => Except.noConfusion hh)
  | ok pr =>
    rw [hg, exceptBind_ok] at h
    obtain ⟨u, _, hst⟩ := hassGenSensorProps_topics _ _ _ _ _ _ _ _ hg
    rw [hcat] at hst
    cases lw with
    | none =>
      cases so with
      | true =>
        dsimp only at h
        injection h with h
        injection h with h1 _
        intro e he
        rw [← h1] at he
        simp at he
      | false =>
        dsimp only at h
        rcases hcs : hassConfigPublishStep st.tracker pr.uniqueId
            (ctx.configJson p pr) pr.configTopic with ⟨evC, tr⟩
        rw [hcs] at h
        dsimp only at h
        injection h with h
        injection h with h1 _
        intro e he
        rw [← h1] at he
        have he' : e ∈ evC ∨
            e = MqttEvent.publish pr.stateTopic (hassStateJson ctx.binary v)
              false := by simpa using he
        rcases he' with h2 | h2
        · have hm2 : e ∈ (hassConfigPublishStep st.tracker pr.uniqueId
              (ctx.configJson p pr) pr.configTopic).1 := by
            rw [hcs]
            exact h2
          rw [hassConfigPublishStep_events _ _ _ _ e hm2]
          exact isOfflinePublish_retained _ _ _ _ _
        · rw [h2, hst]
          exact isOfflinePublish_sensorTopic _ _ _ _ _ _ _
    | some lw' =>
      dsimp only at h
      rcases hmw : mqttWillSet st.mqtt pr.stateTopic
          (hassStateJson ctx.binary lw') with ⟨mq, calls⟩
      rw [hmw] at h
      dsimp only at h
      cases so with
      | true =>
        injection h with h
        injection h with h1 _
        intro e he
        rw [← h1] at he
        obtain ⟨c, _, hce⟩ := List.mem_map.mp he
        rw [← hce]
        rfl
      | false =>
        rcases hcs : hassConfigPublishStep st.tracker pr.uniqueId
            (ctx.configJson p pr) pr.configTopic with ⟨evC, tr⟩
        rw [hcs] at h
        dsimp only at h
        injection h with h
        injection h with h1 _
        intro e he
        rw [← h1] at he
        rcases List.mem_append.mp he with h2 | h3
        · rcases List.mem_append.mp h2 with h4 | h5
          · obtain ⟨c, _, hce⟩ := List.mem_map.mp h4
            rw [← hce]
            rfl
          · have hm2 : e ∈ (hassConfigPublishStep st.tracker pr.uniqueId
                (ctx.configJson p pr) pr.configTopic).1 := by
              rw [hcs]
              exact h5
            rw [hassConfigPublishStep_events _ _ _ _ e hm2]
            exact isOfflinePublish_retained _ _ _ _ _
        · have h6 : e = MqttEvent.publish pr.stateTopic
              (hassStateJson ctx.binary v) false := by simpa using h3
          rw [h6, hst]
          exact isOfflinePublish_sensorTopic _ _ _ _ _ _ _

/-- Extension of `processEntity_events_sensor` to the whole per-entity
loop. -/
theorem processEntities_events_sensor (m sn : String) (ctx : SensorCtx)
    (hc : ctx.binary = false) (p : IecParam) (lw : Option PyVal) (so : Bool)
    (iecLen : Nat) :
    ∀ (vals : List PyVal) (idx : Nat) (st : BusState),
      ∀ e ∈ (processEntities ctx p lw so iecLen idx vals st).1.flatten,
        isOfflinePublish ctx.discPfx m sn e = false := by
  intro vals
  induction vals with
  | nil =>
    intro idx st e he
    simp [processEntities] at he
  | cons v vs ih =>
    intro idx st e he
    unfold processEntities at he
    cases hpe : processEntity ctx p lw so iecLen idx v st with
    | ok r =>
      obtain ⟨evs, st1⟩ := r
      rw [hpe] at he
      dsimp only at he
      rcases hrec : processEntities ctx p lw so iecLen (idx + 1) vs st1
        with ⟨bs, st2⟩
      rw [hrec] at he
      dsimp only at he
      rw [List.flatten_cons] at he
      rcases List.mem_append.mp he with h1 | h2
      · exact processEntity_events_sensor m sn ctx hc p lw so iecLen idx v st
          evs st1 hpe e h1
      · have := ih (idx + 1) st1 e (by rw [hrec]; exact h2)
        exact this
    | error e0 =>
      rw [hpe] at he
      dsimp only at he
      rcases hrec : processEntities ctx p lw so iecLen (idx + 1) vs st
        with ⟨bs, st2⟩
      rw [hrec] at he
      dsimp only at he
      rw [List.flatten_cons] at he
      rcases List.mem_append.mp he with h1 | h2
      · have : e = .logEntityError p.address idx := by simpa using h1
        rw [this]
        rfl
      · exact ih (idx + 1) st e (by rw [hrec]; exact h2)

/-- Extension of the event classification to `process` itself. -/
theorem iecToHassProcess_events_sensor (m sn : String) (ctx : SensorCtx)
    (hc : ctx.binary = false) (p : IecParam) (iecItem : List PyVal)
    (lw : Option PyVal) (so : Bool) (st : BusState) :
    ∀ e ∈ (iecToHassProcess ctx p iecItem lw so st).1,
      isOfflinePublish ctx.discPfx m sn e = false := by
  intro e he
  unfold iecToHassProcess at he
  rcases hn : iecTryValueByIndex p.response_idx iecItem with ⟨vals, logged⟩
  rw [hn] at he
  dsimp only at he
  rcases hpe : processEntities ctx p lw so vals.length 0 vals st
    with ⟨blocks, st'⟩
  rw [hpe] at he
  dsimp only at he
  rcases List.mem_append.mp he with h1 | h2
  · cases logged with
    | true =>
      have : e = .logIndexError p.address := by simpa using h1
      rw [this]
      rfl
    | false => simp at h1
  · have := processEntities_events_sensor m sn ctx hc p lw so vals.length
      vals 0 st e (by rw [hpe]; exact h2)
    exact this

/-- The per-parameter loop with all readings available: it succeeds, yields
one event block per parameter, and (for plain-sensor processing) none of
the events is the offline state publish. -/
theorem loopParams_ok (ctx : SensorCtx) (readings : Nat → Option (List String))
    (m sn : String) :
    ∀ (ps : List IecParam) (i : Nat) (st : BusState),
      (∀ j, j < ps.length → readings (i + j) ≠ none) →
      ∃ blocks st',
        loopParams ctx readings i ps st = (.ok (), blocks, st') ∧
        blocks.length = ps.length ∧
        (ctx.binary = false →
          ∀ e ∈ blocks.flatten, isOfflinePublish ctx.discPfx m sn e = false) := by
  intro ps
  induction ps with
  | nil =>
    intro i st _
    exact ⟨[], st, rfl, rfl, fun _ e he => by simp at he⟩
  | cons p ps' ih =>
    intro i st hne
    have h0 : readings i ≠ none := by
      have := hne 0 (by simp)
      rwa [Nat.add_zero] at this
    obtain ⟨vs, hvs⟩ := Option.ne_none_iff_exists'.mp h0
    rcases hpr : iecToHassProcess ctx p (vs.map PyVal.str) none false st
      with ⟨evs, st1⟩
    obtain ⟨blocks', st2, hl, hlen, hev⟩ := ih (i + 1) st1 (by
      intro j hj
      have := hne (j + 1) (by simp only [List.length_cons]; omega)
      rwa [show i + (j + 1) = i + 1 + j by omega] at this)
    refine ⟨evs :: blocks', st2, ?_, by simp [hlen], ?_⟩
    · unfold loopParams
      rw [hvs]
      dsimp
      rw [hpr]
      dsimp
      rw [hl]
    · intro hc e he
      rw [List.flatten_cons] at he
      rcases List.mem_append.mp he with h1 | h2
      · have := iecToHassProcess_events_sensor m sn ctx hc p
          (vs.map PyVal.str) none false st e (by rw [hpr]; exact h1)
        exact this
      · exact hev hc e h2

/-- The per-parameter loop hitting a read timeout at position `k`: it
returns the timeout, and (for plain-sensor processing) none of the events
already emitted is the offline state publish. -/
theorem loopParams_timeout (ctx : SensorCtx)
    (readings : Nat → Option (List String)) (m sn : String) :
    ∀ (ps : List IecParam) (k i : Nat) (st : BusState),
      k < ps.length → readings (i + k) = none →
      (∀ j, j < k → readings (i + j) ≠ none) →
      ∃ blocks st',
        loopParams ctx readings i ps st = (.error .timeoutError, blocks, st') ∧
        (ctx.binary = false →
          ∀ e ∈ blocks.flatten, isOfflinePublish ctx.discPfx m sn e = false) := by
  intro ps
  induction ps with
  | nil =>
    intro k i st hk
    exact absurd hk (by simp)
  | cons p ps' ih =>
    intro k i st hk hnone hne
    cases k with
    | zero =>
      rw [Nat.add_zero] at hnone
      refine ⟨[], st, ?_, fun _ e he => by simp at he⟩
      unfold loopParams
      rw [hnone]
    | succ k' =>
      have h0 : readings i ≠ none := by
        have := hne 0 (by omega)
        rwa [Nat.add_zero] at this
      obtain ⟨vs, hvs⟩ := Option.ne_none_iff_exists'.mp h0
      rcases hpr : iecToHassProcess ctx p (vs.map PyVal.str) none false st
        with ⟨evs, st1⟩
      obtain ⟨blocks', st2, hl, hev⟩ := ih k' (i + 1) st1
        (by simp only [List.length_cons] at hk; omega)
        (by rwa [show i + 1 + k' = i + (k' + 1) by omega])
        (by
          intro j hj
          have := hne (j + 1) (by omega)
          rwa [show i + (j + 1) = i + 1 + j by omega] at this)
      refine ⟨evs :: blocks', st2, ?_, ?_⟩
      · unfold loopParams
        rw [hvs]
        dsimp
        rw [hpr]
        dsimp
        rw [hl]
      · intro hc e he
        rw [List.flatten_cons] at he
        rcases List.mem_append.mp he with h1 | h2
        · have := iecToHassProcess_events_sensor m sn ctx hc p
            (vs.map PyVal.str) none false st e (by rw [hpr]; exact h1)
          exact this
        · exact hev hc e h2

/-! ## Lemmas: the online pseudo-sensor runs -/

/-- A non-empty meter identity never trips the assertion in
`set_online_sensor`. -/
theorem idsCond_neg (m sw sn : String) (hm : m ≠ "") (hsw : sw ≠ "")
    (hsn : sn ≠ "") : ¬(m = "" ∨ sw = "" ∨ sn = "") := by
  simp [hm, hsw, hsn]

/-- The setup-only run of the online pseudo-sensor on a non-dry-run client
with no will registered yet: it registers exactly the state topic and the
`OFF` state payload as the last will and touches nothing else. -/
theorem setOnlineSensor_setup (d m sw sn : String) (bus : BusState)
    (hm : m ≠ "") (hsw : sw ≠ "") (hsn : sn ≠ "")
    (hdry : bus.mqtt.dryRun = false) (hwill : bus.mqtt.willIsSet = false) :
    setOnlineSensor d (some (m, sw, sn)) false true bus =
      .ok ([.willSet (onlineStateTopic d m sn) offlineStatePayload],
           ⟨⟨false, true, some (onlineStateTopic d m sn, offlineStatePayload)⟩,
            bus.tracker⟩) := by
  obtain ⟨⟨dr, ws, swill⟩, trk⟩ := bus
  dsimp at hdry hwill
  subst hdry
  subst hwill
  unfold setOnlineSensor
  dsimp only
  rw [if_neg (idsCond_neg m sw sn hm hsw hsn)]
  rfl

/-- The full (state `false`) run of the online pseudo-sensor, as used from
the timeout path: the events are the will-set calls, the retained discovery
publish (if due) and the offline state publish, in that order. -/
theorem setOnlineSensor_false_run (d m sw sn : String) (bus : BusState)
    (hm : m ≠ "") (hsw : sw ≠ "") (hsn : sn ≠ "") :
    setOnlineSensor d (some (m, sw, sn)) false false bus =
      .ok ((mqttWillSet bus.mqtt (onlineStateTopic d m sn)
              offlineStatePayload).2.map
            (fun c => MqttEvent.willSet c.1 c.2) ++
          (hassConfigPublishStep bus.tracker
            (m ++ "_" ++ sn ++ "_" ++ "IS_ONLINE")
            (onlineConfigPayload d m sw sn)
            (onlineCfgTopic d m sn)).1 ++
          [.publish (onlineStateTopic d m sn) offlineStatePayload false],
        ⟨(mqttWillSet bus.mqtt (onlineStateTopic d m sn)
            offlineStatePayload).1,
         (hassConfigPublishStep bus.tracker
            (m ++ "_" ++ sn ++ "_" ++ "IS_ONLINE")
            (onlineConfigPayload d m sw sn)
            (onlineCfgTopic d m sn)).2⟩) := by
  unfold setOnlineSensor
  dsimp only
  rw [if_neg (idsCond_neg m sw sn hm hsw hsn)]
  have h : iecToHassProcess ⟨true, d, m, sw, sn⟩ onlineParam [.bool false]
      (some (.bool false)) false bus =
      (((mqttWillSet bus.mqtt (onlineStateTopic d m sn)
            offlineStatePayload).2.map
          (fun c => MqttEvent.willSet c.1 c.2) ++
        (hassConfigPublishStep bus.tracker
          (m ++ "_" ++ sn ++ "_" ++ "IS_ONLINE")
          (onlineConfigPayload d m sw sn)
          (onlineCfgTopic d m sn)).1 ++
        [.publish (onlineStateTopic d m sn) offlineStatePayload false]) ++ [],
       ⟨(mqttWillSet bus.mqtt (onlineStateTopic d m sn)
           offlineStatePayload).1,
        (hassConfigPublishStep bus.tracker
          (m ++ "_" ++ sn ++ "_" ++ "IS_ONLINE")
          (onlineConfigPayload d m sw sn)
          (onlineCfgTopic d m sn)).2⟩) := rfl
  rw [h, List.append_nil]

/-- The will-set calls never look like the offline state publish. -/
theorem countP_offline_willSet (d m sn : String)
    (l : List (String × String)) :
    (l.map (fun c => MqttEvent.willSet c.1 c.2)).countP
      (isOfflinePublish d m sn) = 0 := by
  rw [List.countP_eq_zero]
  intro e he
  obtain ⟨c, _, hce⟩ := List.mem_map.mp he
  rw [← hce]
  simp [isOfflinePublish]

/-- The discovery-publication step never emits the offline state publish. -/
theorem countP_offline_configStep (d m sn : String) (tr : Tracker)
    (uid json topic : String) :
    (hassConfigPublishStep tr uid json topic).1.countP
      (isOfflinePublish d m sn) = 0 := by
  rw [List.countP_eq_zero]
  intro e he
  rw [hassConfigPublishStep_events _ _ _ _ e he]
  simp [isOfflinePublish]

/-- The offline state publish matches its own predicate. -/
theorem isOfflinePublish_self (d m sn : String) :
    isOfflinePublish d m sn
      (.publish (onlineStateTopic d m sn) offlineStatePayload false) = true := by
  simp [isOfflinePublish]

/-- The full offline run of the online pseudo-sensor publishes its `false`
state exactly once. -/
theorem setOnlineSensor_false_count (d m sw sn : String) (bus : BusState)
    (hm : m ≠ "") (hsw : sw ≠ "") (hsn : sn ≠ "") :
    ∃ evs bus',
      setOnlineSensor d (some (m, sw, sn)) false false bus = .ok (evs, bus') ∧
      evs.countP (isOfflinePublish d m sn) = 1 := by
  refine ⟨_, _, setOnlineSensor_false_run d m sw sn bus hm hsw hsn, ?_⟩
  rw [List.countP_append, List.countP_append, countP_offline_willSet,
    countP_offline_configStep]
  simp [List.countP_cons, isOfflinePublish_self]

/-- The timeout path: it re-raises the timeout and appends exactly one
offline state publish to the trace accumulated so far. -/
theorem timeoutExit_props (d m sw sn : String) (bus : BusState)
    (evs : List MqttEvent) (hm : m ≠ "") (hsw : sw ≠ "") (hsn : sn ≠ "") :
    (timeoutExit d ⟨bus, some (m, sw, sn)⟩ evs).1 =
      .error .timeoutError ∧
    ∃ evs',
      (timeoutExit d ⟨bus, some (m, sw, sn)⟩ evs).2.1 = evs ++ evs' ∧
      evs'.countP (isOfflinePublish d m sn) = 1 := by
  obtain ⟨evs0, bus', hrun, hcount⟩ :=
    setOnlineSensor_false_count d m sw sn bus hm hsw hsn
  unfold timeoutExit
  dsimp only
  rw [hrun]
  exact ⟨rfl, evs0, rfl, hcount⟩

/-- A successful identification always yields non-empty model, software
version and serial number. -/
theorem setMeterIds_ok_fields (hello : List String) (m sw sn : String)
    (o : Option (String × String × String))
    (h : setMeterIds hello = (.ok (m, sw, sn), o)) :
    m ≠ "" ∧ sw ≠ "" ∧ sn ≠ "" := by
  match hello with
  | [] => exact absurd (congrArg Prod.fst h) (fun hh => Except.noConfusion hh)
  | x :: y :: r => exact absurd (congrArg Prod.fst h) (fun hh => Except.noConfusion hh)
  | [v] =>
    unfold setMeterIds at h
    dsimp only at h
    rcases hs : splitComma v with _ | ⟨x1, _ | ⟨x2, _ | ⟨x3, _ | ⟨x4, _ | ⟨x5, _ | ⟨x6, t⟩⟩⟩⟩⟩⟩ <;>
      rw [hs] at h <;> dsimp only at h
    case cons.cons.cons.cons.cons.nil =>
      by_cases hcond : x2 ≠ "" ∧ x3 ≠ "" ∧ x4 ≠ ""
      · rw [if_pos hcond] at h
        have h1 := congrArg Prod.fst h
        dsimp at h1
        injection h1 with h1
        injection h1 with ha hb
        injection hb with hb hc
        rw [← ha, ← hb, ← hc]
        exact hcond
      · rw [if_neg hcond] at h
        exact absurd (congrArg Prod.fst h) (fun hh => Except.noConfusion hh)
    all_goals exact absurd (congrArg Prod.fst h) (fun hh => Except.noConfusion hh)

/-- **C3** (amended): on a transport timeout after the session is connected
and identification succeeded — a read timeout on some parameter, or a
timeout on the final break — `iec_read_admin` re-raises the timeout, the
cycle's trace carries exactly one state publish of the online pseudo-entity
with value false, and a last will for that pseudo-entity was registered
before the connect call on the bus client.  The registered last will is the
online pseudo-entity's *state* payload (`\x7b"value": "OFF"\x7d`), not its
discovery payload, which corrects the claim's final clause. -/
theorem c3_timeout_offline_publish :
    ∀ (discPfx : String) (params : List IecParam) (script : MeterScript)
      (st : AdminState) (m sw sn : String)
      (o : Option (String × String × String)),
      st.bus.mqtt.dryRun = false →
      st.bus.mqtt.willIsSet = false →
      script.authOk = true →
      setMeterIds script.hello = (.ok (m, sw, sn), o) →
      ((∃ k, k < params.length ∧ script.readings k = none ∧
          ∀ j, j < k → script.readings j ≠ none) ∨
        ((∀ j, j < params.length → script.readings j ≠ none) ∧
          script.breakOk = false)) →
      (iecReadAdmin discPfx params script st).1 = .error .timeoutError ∧
      (iecReadAdmin discPfx params script st).2.1.countP
        (isOfflinePublish discPfx m sn) = 1 ∧
      (iecReadAdmin discPfx params script st).2.1.take 2 =
        [MqttEvent.willSet (onlineStateTopic discPfx m sn) offlineStatePayload,
         MqttEvent.connect] := by
  intro d params script st m sw sn o hdry hwill hauth hsm htime
  obtain ⟨hm, hsw, hsn⟩ := setMeterIds_ok_fields script.hello m sw sn o hsm
  have hAuth : ¬¬(script.authOk = true) := by simp [hauth]
  unfold iecReadAdmin
  rw [if_neg hAuth, hsm]
  dsimp only
  rw [setOnlineSensor_setup d m sw sn st.bus hm hsw hsn hdry hwill]
  dsimp only
  rcases htime with ⟨k, hk, hknone, hkpre⟩ | ⟨hall, hbrk⟩
  · obtain ⟨blocks, st2, hl, hev⟩ :=
      loopParams_timeout ⟨false, d, m, sw, sn⟩ script.readings m sn params k 0
        ⟨⟨false, true, some (onlineStateTopic d m sn, offlineStatePayload)⟩,
         st.bus.tracker⟩
        hk (by simpa using hknone) (by simpa using hkpre)
    rw [hl]
    dsimp only
    rw [if_pos rfl]
    obtain ⟨h1, evs', h2, h3⟩ := timeoutExit_props d m sw sn st2
      ([MqttEvent.willSet (onlineStateTopic d m sn) offlineStatePayload] ++
        [MqttEvent.connect] ++ blocks.flatten) hm hsw hsn
    refine ⟨h1, ?_, ?_⟩
    · rw [h2, List.countP_append, h3]
      have hC : List.countP (isOfflinePublish d m sn) blocks.flatten = 0 :=
        List.countP_eq_zero.mpr (fun e he => by
          have hev' : isOfflinePublish d m sn e = false := hev rfl e he
          simp [hev'])
      simp [List.countP_append, hC, List.countP_cons, isOfflinePublish]
    · rw [h2]
      rfl
  · obtain ⟨blocks, st2, hl, _, hev⟩ :=
      loopParams_ok ⟨false, d, m, sw, sn⟩ script.readings m sn params 0
        ⟨⟨false, true, some (onlineStateTopic d m sn, offlineStatePayload)⟩,
         st.bus.tracker⟩
        (by simpa using hall)
    rw [hl]
    dsimp only
    rw [if_pos (show ¬(script.breakOk = true) by simp [hbrk])]
    obtain ⟨h1, evs', h2, h3⟩ := timeoutExit_props d m sw sn st2
      ([MqttEvent.willSet (onlineStateTopic d m sn) offlineStatePayload] ++
        [MqttEvent.connect] ++ blocks.flatten) hm hsw hsn
    refine ⟨h1, ?_, ?_⟩
    · rw [h2, List.countP_append, h3]
      have hC : List.countP (isOfflinePublish d m sn) blocks.flatten = 0 :=
        List.countP_eq_zero.mpr (fun e he => by
          have hev' : isOfflinePublish d m sn e = false := hev rfl e he
          simp [hev'])
      simp [List.countP_append, hC, List.countP_cons, isOfflinePublish]
    · rw [h2]
      rfl

/-- Counterexample to C3's last clause: in a concrete timed-out cycle the
registered last will carries the online pseudo-entity's state payload, and
no will-set call ever carries its discovery payload (which differs from the
state payload). -/
theorem c3_counterexample :
    ((iecReadAdmin "homeassistant" []
        ⟨true, ["x,CE301,1.0,00123,y"], fun _ => none, false⟩
        ⟨⟨⟨false, false, none⟩, []⟩, none⟩).2.1.head? =
      some (MqttEvent.willSet (onlineStateTopic "homeassistant" "CE301" "00123")
        offlineStatePayload)) ∧
    ((iecReadAdmin "homeassistant" []
        ⟨true, ["x,CE301,1.0,00123,y"], fun _ => none, false⟩
        ⟨⟨⟨false, false, none⟩, []⟩, none⟩).2.1.countP
      (fun e => match e with
        | MqttEvent.willSet _ pl =>
          pl == onlineConfigPayload "homeassistant" "CE301" "1.0" "00123"
        | _ => false) = 0) ∧
    offlineStatePayload ≠
      onlineConfigPayload "homeassistant" "CE301" "1.0" "00123" := by
  decide

/-- Witness for C3 (amended) at a concrete timed-out cycle. -/
theorem c3_timeout_offline_publish_witness :
    (iecReadAdmin "homeassistant" []
        ⟨true, ["x,CE301,1.0,00123,y"], fun _ => none, false⟩
        ⟨⟨⟨false, false, none⟩, []⟩, none⟩).1 = .error .timeoutError ∧
    (iecReadAdmin "homeassistant" []
        ⟨true, ["x,CE301,1.0,00123,y"], fun _ => none, false⟩
        ⟨⟨⟨false, false, none⟩, []⟩, none⟩).2.1.countP
      (isOfflinePublish "homeassistant" "CE301" "00123") = 1 ∧
    (iecReadAdmin "homeassistant" []
        ⟨true, ["x,CE301,1.0,00123,y"], fun _ => none, false⟩
        ⟨⟨⟨false, false, none⟩, []⟩, none⟩).2.1.take 2 =
      [MqttEvent.willSet (onlineStateTopic "homeassistant" "CE301" "00123")
        offlineStatePayload,
       MqttEvent.connect] :=
  c3_timeout_offline_publish "homeassistant" []
    ⟨true, ["x,CE301,1.0,00123,y"], fun _ => none, false⟩
    ⟨⟨⟨false, false, none⟩, []⟩, none⟩ "CE301" "1.0" "00123"
    (some ("CE301", "1.0", "00123")) rfl rfl rfl (by decide)
    (Or.inr ⟨fun j hj => absurd hj (Nat.not_lt_zero j), rfl⟩)

/-! ## C6: identification failures -/

/-- **C6** (amended): identification parses exactly one response entry into
the meter identity.  A response with zero or more than one entries raises
the built-in `ValueError` (not a dedicated meter-identification error), as
does an entry that does not split into exactly five comma-separated
fields; an entry with an empty model, software version or serial number
raises `EnergomeraMeterError`; either way `iec_read_admin` propagates the
error and the cycle produces no bus traffic at all. -/
theorem c6_identification_failures :
    ∀ (hello : List String) (v a mm sw sn b discPfx : String)
      (params : List IecParam) (script : MeterScript) (st : AdminState)
      (e : PyErr) (ls : List String),
      (hello.length ≠ 1 → (setMeterIds hello).1 = .error .valueError) ∧
      (splitComma v = ls → ls.length ≠ 5 →
        (setMeterIds [v]).1 = .error .valueError) ∧
      (splitComma v = [a, mm, sw, sn, b] → (mm = "" ∨ sw = "" ∨ sn = "") →
        (setMeterIds [v]).1 = .error .meterError) ∧
      (script.authOk = true → (setMeterIds script.hello).1 = .error e →
        (iecReadAdmin discPfx params script st).1 = .error e ∧
        (iecReadAdmin discPfx params script st).2.1 = []) := by
  intro hello v a mm sw sn b d params script st e ls
  refine ⟨?_, ?_, ?_, ?_⟩
  · intro hlen
    match hello with
    | [] => rfl
    | [x] => exact absurd rfl hlen
    | x :: y :: r => rfl
  · intro hs hlen
    rcases ls with _ | ⟨x1, _ | ⟨x2, _ | ⟨x3, _ | ⟨x4, _ | ⟨x5, _ | ⟨x6, t⟩⟩⟩⟩⟩⟩ <;>
      first
        | exact absurd rfl hlen
        | (unfold setMeterIds; dsimp only; rw [hs])
  · intro hs hempty
    unfold setMeterIds
    dsimp only
    rw [hs]
    dsimp only
    rw [if_neg (by
      intro hcond
      rcases hempty with h | h | h
      · exact hcond.1 h
      · exact hcond.2.1 h
      · exact hcond.2.2 h)]
  · intro hauth herr
    have hAuth : ¬¬(script.authOk = true) := by simp [hauth]
    unfold iecReadAdmin
    rw [if_neg hAuth]
    rcases hsm : setMeterIds script.hello with ⟨r, asg⟩
    rw [hsm] at herr
    dsimp only at herr
    subst herr
    exact ⟨rfl, rfl⟩

/-- Counterexample to C6 as stated: the zero-entry case raises the built-in
`ValueError`, while empty identification fields raise the generic
`EnergomeraMeterError`; the two are distinct, and no single
`MeterIdentificationError` class exists in the sources. -/
theorem c6_counterexample :
    (setMeterIds []).1 = Except.error PyErr.valueError ∧
    (setMeterIds ["x,,1.0,00123,y"]).1 = Except.error PyErr.meterError ∧
    PyErr.valueError ≠ PyErr.meterError := by decide

/-- Witness for C6 (amended) at concrete identification responses: a
two-entry response, a three-field entry, an entry with an empty model, and
the error propagating out of the cycle untouched. -/
theorem c6_identification_failures_witness :
    (setMeterIds ["a", "b"]).1 = .error .valueError ∧
    (setMeterIds ["a,b,c"]).1 = .error .valueError ∧
    (setMeterIds ["x,,1.0,00123,y"]).1 = .error .meterError ∧
    ((iecReadAdmin "homeassistant" [] ⟨true, [], fun _ => none, true⟩
        ⟨⟨⟨false, false, none⟩, []⟩, none⟩).1 = .error .valueError ∧
      (iecReadAdmin "homeassistant" [] ⟨true, [], fun _ => none, true⟩
        ⟨⟨⟨false, false, none⟩, []⟩, none⟩).2.1 = []) := by
  have h := c6_identification_failures ["a", "b"] "x,,1.0,00123,y" "x" ""
    "1.0" "00123" "y" "homeassistant" [] ⟨true, [], fun _ => none, true⟩
    ⟨⟨⟨false, false, none⟩, []⟩, none⟩ PyErr.valueError []
  have h2 := c6_identification_failures ["a", "b"] "a,b,c" "" "" "" "" ""
    "homeassistant" [] ⟨true, [], fun _ => none, true⟩
    ⟨⟨⟨false, false, none⟩, []⟩, none⟩ PyErr.valueError ["a", "b", "c"]
  exact ⟨h.1 (by decide), h2.2.1 (by decide) (by decide),
    h.2.2.1 (by decide) (Or.inl rfl), h.2.2.2 rfl (by decide)⟩

/-! ## C7: fault isolation -/

/-- The per-entity loop emits one event block per entity of the reading,
whether the entity succeeded or faulted. -/
theorem processEntities_length (ctx : SensorCtx) (p : IecParam)
    (lw : Option PyVal) (so : Bool) (iecLen : Nat) :
    ∀ (vals : List PyVal) (idx : Nat) (st : BusState),
      (processEntities ctx p lw so iecLen idx vals st).1.length = vals.length := by
  intro vals
  induction vals with
  | nil => intro idx st; rfl
  | cons v vs ih =>
    intro idx st
    unfold processEntities
    cases hpe : processEntity ctx p lw so iecLen idx v st with
    | ok r =>
      obtain ⟨evs, st1⟩ := r
      show (evs :: (processEntities ctx p lw so iecLen (idx + 1) vs st1).1).length
        = vs.length + 1
      rw [List.length_cons, ih]
    | error e0 =>
      show ([MqttEvent.logEntityError p.address idx] ::
        (processEntities ctx p lw so iecLen (idx + 1) vs st).1).length
        = vs.length + 1
      rw [List.length_cons, ih]

/-- A faulting entity contributes exactly one log line and leaves the bus
state unchanged, and the remaining entities are still processed. -/
theorem processEntities_error_cons (ctx : SensorCtx) (p : IecParam)
    (lw : Option PyVal) (so : Bool) (iecLen idx : Nat) (v : PyVal)
    (vs : List PyVal) (st : BusState) (e : PyErr)
    (h : processEntity ctx p lw so iecLen idx v st = .error e) :
    processEntities ctx p lw so iecLen idx (v :: vs) st =
      ([MqttEvent.logEntityError p.address idx] ::
        (processEntities ctx p lw so iecLen (idx + 1) vs st).1,
       (processEntities ctx p lw so iecLen (idx + 1) vs st).2) := by
  rcases hrec : processEntities ctx p lw so iecLen (idx + 1) vs st
    with ⟨bs, st2⟩
  unfold processEntities
  rw [h, hrec]

/-- **C7**: a failure while processing one entity is caught and logged with
the descriptor address and the offending index, the remaining entities are
still processed against the unchanged state, every entity yields exactly
one event block, and with all readings available the per-parameter loop
completes with one block per configured parameter. -/
theorem c7_fault_isolation :
    ∀ (ctx : SensorCtx) (p : IecParam) (lw : Option PyVal) (so : Bool)
      (iecLen idx : Nat) (v : PyVal) (vals vs : List PyVal) (st : BusState)
      (e : PyErr) (readings : Nat → Option (List String))
      (ps : List IecParam) (i : Nat),
      ((processEntities ctx p lw so iecLen idx vals st).1.length
        = vals.length) ∧
      (processEntity ctx p lw so iecLen idx v st = .error e →
        processEntities ctx p lw so iecLen idx (v :: vs) st =
          ([MqttEvent.logEntityError p.address idx] ::
            (processEntities ctx p lw so iecLen (idx + 1) vs st).1,
           (processEntities ctx p lw so iecLen (idx + 1) vs st).2)) ∧
      ((∀ j, j < ps.length → readings (i + j) ≠ none) →
        ∃ blocks st',
          loopParams ctx readings i ps st = (.ok (), blocks, st') ∧
          blocks.length = ps.length) := by
  intro ctx p lw so iecLen idx v vals vs st e readings ps i
  refine ⟨processEntities_length ctx p lw so iecLen vals idx st,
    fun herr => processEntities_error_cons ctx p lw so iecLen idx v vs st e herr,
    fun hne => ?_⟩
  obtain ⟨blocks, st', hl, hlen, _⟩ :=
    loopParams_ok ctx readings "" "" ps i st hne
  exact ⟨blocks, st', hl, hlen⟩

/-- Witness for C7: a parameter whose `name` is an empty list faults on
every entity; both entities are logged and the loop still completes. -/
theorem c7_fault_isolation_witness :
    (processEntities ⟨false, "homeassistant", "CE301", "1.0", "00123"⟩
        ⟨"ADDR", .l [], none, none, none, none, none, none⟩ none false 2 0
        [.str "x", .str "y"] ⟨⟨false, false, none⟩, []⟩).1.length = 2 ∧
    processEntities ⟨false, "homeassistant", "CE301", "1.0", "00123"⟩
        ⟨"ADDR", .l [], none, none, none, none, none, none⟩ none false 2 0
        [.str "x", .str "y"] ⟨⟨false, false, none⟩, []⟩ =
      ([MqttEvent.logEntityError "ADDR" 0] ::
        (processEntities ⟨false, "homeassistant", "CE301", "1.0", "00123"⟩
          ⟨"ADDR", .l [], none, none, none, none, none, none⟩ none false 2 1
          [.str "y"] ⟨⟨false, false, none⟩, []⟩).1,
       (processEntities ⟨false, "homeassistant", "CE301", "1.0", "00123"⟩
          ⟨"ADDR", .l [], none, none, none, none, none, none⟩ none false 2 1
          [.str "y"] ⟨⟨false, false, none⟩, []⟩).2) ∧
    (∃ blocks st',
      loopParams ⟨false, "homeassistant", "CE301", "1.0", "00123"⟩
          (fun _ => some ["1"]) 0
          [⟨"ADDR", .l [], none, none, none, none, none, none⟩]
          ⟨⟨false, false, none⟩, []⟩ = (.ok (), blocks, st') ∧
      blocks.length = 1) := by
  have h := c7_fault_isolation
    ⟨false, "homeassistant", "CE301", "1.0", "00123"⟩
    ⟨"ADDR", .l [], none, none, none, none, none, none⟩ none false 2 0
    (.str "x") [.str "x", .str "y"] [.str "y"] ⟨⟨false, false, none⟩, []⟩
    .indexError (fun _ => some ["1"])
    [⟨"ADDR", .l [], none, none, none, none, none, none⟩] 0
  exact ⟨h.1, h.2.1 (by decide), h.2.2 (fun j hj h0 => Option.noConfusion h0)⟩

/-! ## C8: out-of-range response_idx -/

/-- **C8**: with `response_idx` out of range of the reading (in Python's
negative-index-aware sense), index selection narrows the reading to the
empty sequence with the error logged, and `process` emits only that log
line, publishes nothing, and leaves the state untouched — it never
raises. -/
theorem c8_out_of_range_response_idx :
    ∀ (α : Type) (xs : List α) (i : Int) (ctx : SensorCtx) (p : IecParam)
      (iecItem : List PyVal) (lw : Option PyVal) (so : Bool) (st : BusState),
      (((xs.length : Int) ≤ i ∨ i < -(xs.length : Int)) →
        iecTryValueByIndex (some i) xs = ([], true)) ∧
      (p.response_idx = some i →
        ((iecItem.length : Int) ≤ i ∨ i < -(iecItem.length : Int)) →
        iecToHassProcess ctx p iecItem lw so st =
          ([MqttEvent.logIndexError p.address], st)) := by
  intro α xs i ctx p iecItem lw so st
  have key : ∀ (β : Type) (ys : List β),
      ((ys.length : Int) ≤ i ∨ i < -(ys.length : Int)) →
      iecTryValueByIndex (some i) ys = ([], true) := by
    intro β ys hrange
    unfold iecTryValueByIndex pyListIndex
    dsimp only
    rw [if_neg (show ¬(0 ≤ (if i < 0 then (ys.length : Int) + i else i) ∧
        (if i < 0 then (ys.length : Int) + i else i) < (ys.length : Int)) by
      rcases hrange with h | h
      · rw [if_neg (by omega)]
        omega
      · rw [if_pos (by omega)]
        omega)]
  refine ⟨key α xs, ?_⟩
  intro hr hrange
  unfold iecToHassProcess
  rw [hr, key PyVal iecItem hrange]
  rfl

/-- Witness for C8: index 5 into a 2-entry reading. -/
theorem c8_out_of_range_response_idx_witness :
    iecTryValueByIndex (some 5) ["a", "b"] = ([], true) ∧
    iecToHassProcess ⟨false, "homeassistant", "CE301", "1.0", "00123"⟩
      ⟨"ADDR", .s "Name", none, none, none, none, none, some 5⟩
      [.str "x", .str "y"] none false ⟨⟨false, false, none⟩, []⟩ =
      ([MqttEvent.logIndexError "ADDR"], ⟨⟨false, false, none⟩, []⟩) := by
  have h := c8_out_of_range_response_idx String ["a", "b"] 5
    ⟨false, "homeassistant", "CE301", "1.0", "00123"⟩
    ⟨"ADDR", .s "Name", none, none, none, none, none, some 5⟩
    [.str "x", .str "y"] none false ⟨⟨false, false, none⟩, []⟩
  exact ⟨h.1 (by decide), h.2 rfl (by decide)⟩

/-! ## C10: the last-will latch -/

/-- **C10** (amended): for a client *not* in dry-run mode, once a last will
has been set — via the constructor's `will` argument or the first
`will_set` call — every later `will_set` call is a no-op, and after
`will_clear` the next `will_set` takes effect again.  (In dry-run mode
`will_clear` is itself a no-op, so the reset clause of the original claim
fails there; see the counterexample.) -/
theorem c10_will_set_latch :
    ∀ (st : MqttClientState) (t p t2 p2 : String)
      (w : Option (String × String)),
      ((mkMqttClient w false).willIsSet = w.isSome ∧
        (mkMqttClient w false).storedWill = w) ∧
      (st.willIsSet = true → mqttWillSet st t p = (st, [])) ∧
      (st.dryRun = false → st.willIsSet = false →
        mqttWillSet st t p = (⟨false, true, some (t, p)⟩, [(t, p)])) ∧
      (st.dryRun = false →
        (mqttWillClear st).willIsSet = false ∧
        (mqttWillClear st).storedWill = none ∧
        mqttWillSet (mqttWillClear st) t2 p2 =
          (⟨false, true, some (t2, p2)⟩, [(t2, p2)])) := by
  intro st t p t2 p2 w
  obtain ⟨dr, ws, sw⟩ := st
  refine ⟨⟨rfl, rfl⟩, ?_, ?_, ?_⟩
  · intro h
    dsimp only at h
    subst h
    cases dr <;> rfl
  · intro h1 h2
    dsimp only at h1 h2
    subst h1
    subst h2
    rfl
  · intro h1
    dsimp only at h1
    subst h1
    exact ⟨rfl, rfl, rfl⟩

/-- Counterexample to C10 as stated: for a dry-run client with a
constructor will, `will_clear` is a no-op, so the subsequent `will_set`
does not take effect and the original will survives. -/
theorem c10_counterexample :
    (mqttWillSet (mqttWillClear (mkMqttClient (some ("t0", "p0")) true))
        "t1" "p1").1.storedWill = some ("t0", "p0") ∧
    some ("t0", "p0") ≠ some (("t1" : String), ("p1" : String)) := by decide

/-- Witness for C10 (amended): latch, first set and clear-then-set on
concrete non-dry-run clients. -/
theorem c10_will_set_latch_witness :
    (mqttWillSet ⟨false, true, some ("t0", "p0")⟩ "t1" "p1" =
      (⟨false, true, some ("t0", "p0")⟩, [])) ∧
    (mqttWillSet ⟨false, false, none⟩ "t1" "p1" =
      (⟨false, true, some ("t1", "p1")⟩, [("t1", "p1")])) ∧
    (mqttWillSet (mqttWillClear ⟨false, true, some ("t0", "p0")⟩) "t2" "p2" =
      (⟨false, true, some ("t2", "p2")⟩, [("t2", "p2")])) := by
  have h := c10_will_set_latch ⟨false, true, some ("t0", "p0")⟩ "t1" "p1"
    "t2" "p2" none
  have h2 := c10_will_set_latch ⟨false, false, none⟩ "t1" "p1" "t2" "p2" none
  exact ⟨h.2.1 rfl, h2.2.2.1 rfl rfl, (h.2.2.2 rfl).2.2⟩

end Energomera
